import Mathlib

/-!
Verification of the view/window-decoration layer (NSView.m,
GSStandardWindowDecorationView.m) of this GUI toolkit.

Coordinates are embedded as exact rationals (the source uses C floats;
all the claims under study are about the branch structure and the
rectangle/flag algebra, which the source states in exact comparisons).
The rectangle primitives (NSIntersectionRect, NSUnionRect, NSIsEmptyRect,
NSEqualRects) are the Foundation geometry collaborators; they are not part
of this repository, so they are modelled here from their documented
standard semantics, which the spec relies on (intersection, union,
emptiness as width/height being non-positive).
-/

namespace GeomQ

/-- A 2D point (NSPoint) with rational coordinates. -/
structure Pt where
  x : ℚ
  y : ℚ
  deriving DecidableEq, Repr

/-- A 2D size (NSSize). -/
structure Sz where
  w : ℚ
  h : ℚ
  deriving DecidableEq, Repr

/-- A rectangle (NSRect): origin plus size. -/
structure Rect where
  x : ℚ
  y : ℚ
  w : ℚ
  h : ℚ
  deriving DecidableEq, Repr

def NSZeroRect : Rect := ⟨0, 0, 0, 0⟩

def NSMakeRect (x y w h : ℚ) : Rect := ⟨x, y, w, h⟩

def Rect.maxX (r : Rect) : ℚ := r.x + r.w
def Rect.maxY (r : Rect) : ℚ := r.y + r.h
def Rect.minX (r : Rect) : ℚ := r.x
def Rect.minY (r : Rect) : ℚ := r.y

/-- Modelled from the spec: Foundation NSIsEmptyRect — a rect is empty
unless both its width and height are strictly positive. -/
def NSIsEmptyRect (r : Rect) : Bool :=
  !(r.w > 0 && r.h > 0)

/-- Modelled from the spec: Foundation NSIntersectionRect — zero rect when
the rects do not strictly overlap, otherwise origin at the max of the
minima and extent to the min of the maxima. -/
def NSIntersectionRect (a b : Rect) : Rect :=
  if a.maxX ≤ b.minX || b.maxX ≤ a.minX || a.maxY ≤ b.minY || b.maxY ≤ a.minY then
    NSZeroRect
  else
    let ox := max a.x b.x
    let oy := max a.y b.y
    ⟨ox, oy, min a.maxX b.maxX - ox, min a.maxY b.maxY - oy⟩

/-- Modelled from the spec: Foundation NSUnionRect — empty arguments are
ignored (both empty gives the zero rect), otherwise the bounding box. -/
def NSUnionRect (a b : Rect) : Rect :=
  if NSIsEmptyRect a && NSIsEmptyRect b then NSZeroRect
  else if NSIsEmptyRect a then b
  else if NSIsEmptyRect b then a
  else
    let ox := min a.x b.x
    let oy := min a.y b.y
    ⟨ox, oy, max a.maxX b.maxX - ox, max a.maxY b.maxY - oy⟩

/-- Modelled from the spec: Foundation NSEqualRects — exact component
equality. -/
def NSEqualRects (a b : Rect) : Bool := a == b

/-- r lies inside b (as a region): r is empty, or each edge of r is within
the corresponding edge of b. This is the containment the spec's
invariant `invalidRect ⊆ bounds` refers to. -/
def subRect (r b : Rect) : Prop :=
  NSIsEmptyRect r = true ∨
    (b.x ≤ r.x ∧ b.y ≤ r.y ∧ r.maxX ≤ b.maxX ∧ r.maxY ≤ b.maxY)

instance (r b : Rect) : Decidable (subRect r b) := by
  unfold subRect; infer_instance

end GeomQ

/-!
## Affine transforms

The view code manipulates NSAffineTransform values (the spec's
AffineTransform component). The matrix representation and the point
mapping follow the NSAffineTransformStruct layout (m11 m12 m21 m22 tX tY)
with pointInMatrixSpace applying the linear part then the translation.
`Aff.inv` is modelled from the spec: the inversion routine itself lives in
the base library (not under src/); the spec states the from-window
transform "is the exact inverse", which for an invertible matrix is the
classical adjugate-over-determinant formula used here.
-/

namespace AffQ

open GeomQ

/-- NSAffineTransform contents (NSAffineTransformStruct). -/
structure Aff where
  m11 : ℚ
  m12 : ℚ
  m21 : ℚ
  m22 : ℚ
  tX : ℚ
  tY : ℚ
  deriving DecidableEq, Repr

/-- pointInMatrixSpace / transformPoint. -/
def Aff.apply (t : Aff) (p : Pt) : Pt :=
  ⟨t.m11 * p.x + t.m21 * p.y + t.tX, t.m12 * p.x + t.m22 * p.y + t.tY⟩

/-- makeIdentityMatrix. -/
def Aff.identity : Aff := ⟨1, 0, 0, 1, 0, 0⟩

/-- prependTransform: — the argument is applied first, the receiver after
(the source composes child matrices into the window matrix this way). -/
def Aff.prepend (m f : Aff) : Aff :=
  ⟨m.m11 * f.m11 + m.m21 * f.m12,
   m.m12 * f.m11 + m.m22 * f.m12,
   m.m11 * f.m21 + m.m21 * f.m22,
   m.m12 * f.m21 + m.m22 * f.m22,
   m.m11 * f.tX + m.m21 * f.tY + m.tX,
   m.m12 * f.tX + m.m22 * f.tY + m.tY⟩

def Aff.det (t : Aff) : ℚ := t.m11 * t.m22 - t.m12 * t.m21

/-- Modelled from the spec: matrix inversion (NSAffineTransform invert,
base library, not under src/) as the exact affine inverse. -/
def Aff.inv (t : Aff) : Aff :=
  ⟨t.m22 / t.det, -t.m12 / t.det, -t.m21 / t.det, t.m11 / t.det,
   (t.m21 * t.tY - t.m22 * t.tX) / t.det,
   (t.m12 * t.tX - t.m11 * t.tY) / t.det⟩

/-- The flip matrix inserted by _rebuildCoordinates when the flip state
differs from the superview: vertical mirror anchored at the frame
height h (the source's static transform {1,0,0,-1,0,1} with tY set to h). -/
def flipM (h : ℚ) : Aff := ⟨1, 0, 0, -1, 0, h⟩

/-- convert_rect_using_matrices (NSView.m): apply matrix1 then matrix2 to
the four corners and return the bounding box. -/
def convertRectUsingMatrices (aRect : Rect) (matrix1 matrix2 : Aff) : Rect :=
  let p0 : Pt := ⟨aRect.x, aRect.y⟩
  let p1 : Pt := ⟨aRect.x + aRect.w, aRect.y⟩
  let p2 : Pt := ⟨aRect.x, aRect.y + aRect.h⟩
  let p3 : Pt := ⟨aRect.x + aRect.w, aRect.y + aRect.h⟩
  let q0 := matrix2.apply (matrix1.apply p0)
  let q1 := matrix2.apply (matrix1.apply p1)
  let q2 := matrix2.apply (matrix1.apply p2)
  let q3 := matrix2.apply (matrix1.apply p3)
  let mnx := min (min (min q0.x q1.x) q2.x) q3.x
  let mny := min (min (min q0.y q1.y) q2.y) q3.y
  let mxx := max (max (max q0.x q1.x) q2.x) q3.x
  let mxy := max (max (max q0.y q1.y) q2.y) q3.y
  ⟨mnx, mny, mxx - mnx, mxy - mny⟩

/-- A view as seen by the coordinate-conversion methods: its two cached
window matrices (by _rebuildCoordinates, fromWindow is the inverse of
toWindow; theorems state that relation as a hypothesis). -/
structure CView where
  toWindow : Aff
  fromWindow : Aff
  deriving Repr

/-- convertPoint:fromView: — map through aView's to-window matrix, then
through the receiver's from-window matrix (receiver first argument). -/
def convertPointFromView (self aView : CView) (p : Pt) : Pt :=
  self.fromWindow.apply (aView.toWindow.apply p)

/-- convertPoint:toView: — map through the receiver's to-window matrix,
then through aView's from-window matrix. -/
def convertPointToView (self aView : CView) (p : Pt) : Pt :=
  aView.fromWindow.apply (self.toWindow.apply p)

/-- convertRect:fromView: (non-degenerate case). -/
def convertRectFromView (self aView : CView) (r : Rect) : Rect :=
  convertRectUsingMatrices r aView.toWindow self.fromWindow

end AffQ


/-!
## Key-view chain walk (nextValidKeyView / previousValidKeyView)
-/

namespace KeyViewModel

/-- The key-view linkage consulted by nextKeyView (or previousKeyView):
each view has at most one link in the given direction (none models a
chain end), plus the canBecomeKeyView eligibility test. Views are
identified by numbers. The same walk implements previousValidKeyView
with the previous-links map as `next`. -/
structure Chain where
  next : Nat → Option Nat
  canBecomeKeyView : Nat → Bool

/-- The stopping test of the while(1) loop in nextValidKeyView: stop on
nil, on returning to the origin view, or on a view that can become key
view. -/
def stops (c : Chain) (origin : Nat) : Option Nat → Bool
  | none => true
  | some v => v == origin || c.canBecomeKeyView v

/-- The while(1) loop of nextValidKeyView, with explicit fuel: the source
loop is unbounded, so a result of none (for every fuel) models
divergence. -/
def walk (c : Chain) (origin : Nat) : Nat → Option Nat → Option (Option Nat)
  | 0, _ => none
  | fuel + 1, theView =>
    if stops c origin theView then some theView
    else walk c origin fuel (theView.bind c.next)

/-- nextValidKeyView: start from the receiver's nextKeyView and loop. -/
def nextValidKeyView (c : Chain) (origin : Nat) (fuel : Nat) : Option (Option Nat) :=
  walk c origin fuel (c.next origin)

/-- Position of the chain walk after k link steps from a start view. -/
def orbitFrom (c : Chain) : Nat → Option Nat → Option Nat
  | 0, st => st
  | k + 1, st => orbitFrom c k (st.bind c.next)

/-- The loop A → B → C → A of the spec scenario (views 0, 1, 2), with
every view ineligible for focus. -/
def kvCycle3 : Chain :=
  ⟨fun v => if v = 0 then some 1 else if v = 1 then some 2 else
     if v = 2 then some 0 else none,
   fun _ => false⟩

end KeyViewModel

/-!
## Window decoration chrome (GSStandardWindowDecorationView)
-/

namespace DecoModel

open GeomQ

/-- Modelled from the spec: the standard OpenStep style-mask bits (the
AppKit header defining them is not under src/). -/
def NSTitledWindowMask : Nat := 1

def NSClosableWindowMask : Nat := 2

def NSMiniaturizableWindowMask : Nat := 4

def NSResizableWindowMask : Nat := 8

/-- The theme metrics consulted by the decoration (GSTheme collaborator):
titlebarHeight and resizebarHeight. -/
structure Theme where
  titlebarHeight : ℚ
  resizebarHeight : ℚ
  deriving Repr

/-- The region state of GSStandardWindowDecorationView. -/
structure DecoView where
  hasTitleBar : Bool
  hasResizeBar : Bool
  hasCloseButton : Bool
  hasMiniaturizeButton : Bool
  isTitled : Bool
  titleBarRect : Rect
  resizeBarRect : Rect
  closeButtonRect : Rect
  miniaturizeButtonRect : Rect
  deriving Repr, DecidableEq

/-- updateRects: recompute each present region from the decoration frame
and the theme metrics. -/
def updateRects (theme : Theme) (frame : Rect) (d : DecoView) : DecoView :=
  let d := if d.hasTitleBar then
    { d with titleBarRect :=
        NSMakeRect 0 (frame.h - theme.titlebarHeight) frame.w theme.titlebarHeight }
    else d
  let d := if d.hasResizeBar then
    { d with resizeBarRect := NSMakeRect 0 0 frame.w theme.resizebarHeight }
    else d
  let d := if d.hasCloseButton then
    { d with closeButtonRect :=
        NSMakeRect (frame.w - 15 - 4) (frame.h - 15 - 4) 15 15 }
    else d
  let d := if d.hasMiniaturizeButton then
    { d with miniaturizeButtonRect := NSMakeRect 4 (frame.h - 15 - 4) 15 15 }
    else d
  d

/-- initWithFrame:window: — derive the region flags from the window style
mask (ivars start zeroed) and compute region rects via updateRects.
Button-view creation is an external concern and is not part of the
region state modelled here. -/
def initWithFrameWindow (theme : Theme) (frame : Rect) (styleMask : Nat) : DecoView :=
  let d : DecoView :=
    ⟨false, false, false, false, false, NSZeroRect, NSZeroRect, NSZeroRect, NSZeroRect⟩
  let d := if Nat.land styleMask
      (Nat.lor (Nat.lor NSTitledWindowMask NSClosableWindowMask)
        NSMiniaturizableWindowMask) ≠ 0 then
    { d with hasTitleBar := true } else d
  let d := if Nat.land styleMask NSTitledWindowMask ≠ 0 then
    { d with isTitled := true } else d
  let d := if Nat.land styleMask NSClosableWindowMask ≠ 0 then
    { d with hasCloseButton := true } else d
  let d := if Nat.land styleMask NSMiniaturizableWindowMask ≠ 0 then
    { d with hasMiniaturizeButton := true } else d
  let d := if Nat.land styleMask NSResizableWindowMask ≠ 0 then
    { d with hasResizeBar := true } else d
  updateRects theme frame d

end DecoModel

/-!
## Tracking rectangles (addTrackingRect:owner:userData:assumeInside:)
-/

namespace TrackModel

open GeomQ AffQ

/-- A registered tracking rectangle (GSTrackingRect): the stored rect (in
window coordinates), its tag and the assume-inside flag. The owner and
user data do not participate in the claims. -/
structure TRect where
  rect : Rect
  tag : Int
  inside : Bool
  deriving Repr, DecidableEq

/-- addTrackingRect:owner:userData:assumeInside: — scan the registered
rects for the largest tag, return one more than that (1 on an empty
collection), convert the rect to window coordinates
(convertRect:toView: nil via the receiver's to-window matrix m1 and the
window top view's from-window matrix m2) and append the new record. -/
def addTrackingRect (m1 m2 : Aff) (tracking : List TRect) (aRect : Rect)
    (flag : Bool) : Int × List TRect :=
  let t := tracking.foldl (fun t m => if m.tag > t then m.tag else t) 0
  let t := t + 1
  let aRect := convertRectUsingMatrices aRect m1 m2
  (t, tracking ++ [⟨aRect, t, flag⟩])

/-- removeTrackingRect: — remove the first registered rect carrying the
tag (the source returns as soon as one matches). -/
def removeTrackingRect (tag : Int) : List TRect → List TRect
  | [] => []
  | m :: rest => if m.tag == tag then rest else m :: removeTrackingRect tag rest

end TrackModel


namespace DecoModel

/-- The style mask of the C9 scenario: titled, closable, miniaturizable
and resizable combined. -/
def fullStyleMask : Nat :=
  Nat.lor (Nat.lor (Nat.lor NSTitledWindowMask NSClosableWindowMask)
    NSMiniaturizableWindowMask) NSResizableWindowMask

end DecoModel


/-!
## Lazy coordinate rebuild (_rebuildCoordinates)
-/

namespace CoordModel

open GeomQ AffQ

/-- The per-node inputs read by _rebuildCoordinates: the frame and bounds
rects, the frame and bounds matrices, and the flip state. -/
structure RNode where
  frame : Rect
  bounds : Rect
  frameMatrix : Aff
  boundsMatrix : Aff
  flipped : Bool
  deriving Repr

/-- What the superview contributes to a rebuild: its (already rebuilt)
to-window matrix, its visible rect, and its flip state. -/
structure SuperCtx where
  toWindow : Aff
  visibleRect : Rect
  flipped : Bool
  deriving Repr

/-- _rebuildCoordinates: the rebuilt (matrixToWindow, matrixFromWindow,
visibleRect) triple. The source runs two consecutive tests: the
no-window branch stores identity matrices and a zero visible rect, and
then the no-superview test (an independent if/else, not chained to the
window test) overwrites all three values on every path — the windowless
branch is therefore dead, which the model keeps visible as the unused
binding st. The from-window matrix is the inverse of the to-window
matrix (NSAffineTransform invert, modelled exactly; theorems needing
invertibility carry a determinant hypothesis). -/
def rebuildCoordinates (hasWindow : Bool) (sup : Option SuperCtx) (v : RNode) :
    Aff × Aff × Rect :=
  let st : Aff × Aff × Rect :=
    if hasWindow = false then (Aff.identity, Aff.identity, NSZeroRect)
    else (Aff.identity, Aff.identity, NSZeroRect)
  match sup with
  | none => (Aff.identity, Aff.identity, v.bounds)
  | some c =>
    let m2w := c.toWindow.prepend v.frameMatrix
    let m2w := if v.flipped != c.flipped then m2w.prepend (flipM v.frame.h) else m2w
    let m2w := m2w.prepend v.boundsMatrix
    let mfw := m2w.inv
    let superviewsVisibleRect := convertRectUsingMatrices c.visibleRect c.toWindow mfw
    let _ := st
    (m2w, mfw, NSIntersectionRect superviewsVisibleRect v.bounds)

/-- The visibleRect accessor value after a rebuild. -/
def visibleRectOf (hasWindow : Bool) (sup : Option SuperCtx) (v : RNode) : Rect :=
  (rebuildCoordinates hasWindow sup v).2.2

/-- A concrete standalone node: no window, no superview, 10 by 10 bounds. -/
def standaloneNode : RNode :=
  ⟨NSMakeRect 0 0 10 10, NSMakeRect 0 0 10 10, Aff.identity, Aff.identity, false⟩

end CoordModel


/-!
## Frame mutation and transform-cache invalidation (setFrame:)
-/

namespace FrameModel

open GeomQ

/-- Modelled from the spec: the standard autoresizing mask bits (the
AppKit header defining them is not under src/). -/
def NSViewNotSizable : Nat := 0

def NSViewMinXMargin : Nat := 1

def NSViewWidthSizable : Nat := 2

def NSViewMaxXMargin : Nat := 4

def NSViewMinYMargin : Nat := 8

def NSViewHeightSizable : Nat := 16

def NSViewMaxYMargin : Nat := 32

/-- FLT_MAX as an exact rational (the sentinel _updateBoundsMatrix stores
for a zero-width or zero-height bounds with nonzero frame). -/
def fltMax : ℚ := 340282346638528859811704183484516925440

/-- The per-view state read and written by setFrame: and
_invalidateCoordinates (matrices appear in the coordinate model; here
only the rotated/scaled flags they influence are tracked). -/
structure FNode where
  frame : Rect
  bounds : Rect
  coordinatesValid : Bool
  autoresizesSubviews : Bool
  autoresizingMask : Nat
  isRotatedFromBase : Bool
  isRotatedOrScaledFromBase : Bool
  flipped : Bool
  deriving Repr, DecidableEq

/-- A view with its subtree of subviews. -/
inductive FTree where
  | node : FNode → List FTree → FTree
  deriving Repr

def FTree.root : FTree → FNode
  | node v _ => v

def FTree.children : FTree → List FTree
  | node _ cs => cs

mutual

/-- _invalidateCoordinates: mark the receiver's cached coordinates
invalid and recurse into the subviews, short-circuiting subviews whose
cache is already invalid; a receiver with an invalid cache does
nothing. -/
def invalidateCoordinates : FTree → FTree
  | .node v cs =>
    if v.coordinatesValid then
      .node { v with coordinatesValid := false } (invalidateChildren cs)
    else .node v cs

/-- The subview loop of _invalidateCoordinates. -/
def invalidateChildren : List FTree → List FTree
  | [] => []
  | sub :: rest =>
    (if sub.root.coordinatesValid then invalidateCoordinates sub else sub) ::
      invalidateChildren rest

end

/-- _updateBoundsMatrix, restricted to the state this model tracks: the
scale factors it derives from frame and bounds, and the
rotated-or-scaled flag it raises when they differ from 1. -/
def updateBoundsMatrixFlag (v : FNode) : FNode :=
  let sx : ℚ :=
    if v.bounds.w = 0 then (if v.frame.w = 0 then 1 else fltMax)
    else v.frame.w / v.bounds.w
  let sy : ℚ :=
    if v.bounds.h = 0 then (if v.frame.h = 0 then 1 else fltMax)
    else v.frame.h / v.bounds.h
  if sx ≠ 1 ∨ sy ≠ 1 then { v with isRotatedOrScaledFromBase := true } else v

/-- The new frame computed by resizeWithOldSuperviewSize: for one
subview, or none when the subview's mask is NSViewNotSizable (the
early return). superSize is the superview's current (new) frame size,
oldSize its size before the change, superFlipped its flip state. -/
def resizeNewFrame (superSize oldSize : Sz) (superFlipped : Bool) (c : FNode) :
    Option Rect :=
  if c.autoresizingMask = NSViewNotSizable then none
  else
    let nf := c.frame
    let options :=
      (if Nat.land c.autoresizingMask NSViewWidthSizable ≠ 0 then 1 else 0) +
      (if Nat.land c.autoresizingMask NSViewMinXMargin ≠ 0 then 1 else 0) +
      (if Nat.land c.autoresizingMask NSViewMaxXMargin ≠ 0 then 1 else 0)
    let nf :=
      if 0 < options then
        let changePerOption : ℚ := (superSize.w - oldSize.w) / (options : ℚ)
        let nf := if Nat.land c.autoresizingMask NSViewWidthSizable ≠ 0 then
          { nf with w := nf.w + changePerOption } else nf
        let nf := if Nat.land c.autoresizingMask NSViewMinXMargin ≠ 0 then
          { nf with x := nf.x + changePerOption } else nf
        nf
      else nf
    let options :=
      (if Nat.land c.autoresizingMask NSViewHeightSizable ≠ 0 then 1 else 0) +
      (if Nat.land c.autoresizingMask NSViewMinYMargin ≠ 0 then 1 else 0) +
      (if Nat.land c.autoresizingMask NSViewMaxYMargin ≠ 0 then 1 else 0)
    let nf :=
      if 0 < options then
        let changePerOption : ℚ := (superSize.h - oldSize.h) / (options : ℚ)
        let nf := if Nat.land c.autoresizingMask NSViewHeightSizable ≠ 0 then
          { nf with h := nf.h + changePerOption } else nf
        let nf :=
          if Nat.land c.autoresizingMask (Nat.lor NSViewMaxYMargin NSViewMinYMargin) ≠ 0 then
            if superFlipped then
              (if Nat.land c.autoresizingMask NSViewMaxYMargin ≠ 0 then
                { nf with y := nf.y + changePerOption } else nf)
            else
              (if Nat.land c.autoresizingMask NSViewMinYMargin ≠ 0 then
                { nf with y := nf.y + changePerOption } else nf)
          else nf
        nf
      else nf
    some nf

/-- The local state update of setFrame: before any recursion: clamp
negative sizes, record whether origin or size changed, store the frame
(and, per the source, copy the frame size into the bounds size), and
refresh the bounds-matrix scale flag when a rotated/scaled view is
resized. Returns the updated view, the changedSize || changedOrigin
test, and the old frame size. The frame/bounds-changed notification is
fire-and-forget and carries no view state, so it is not part of the
model. -/
def setFrameUpdate (frameRect : Rect) (v : FNode) : FNode × Bool × Sz :=
  let fr := frameRect
  let fr := if fr.w < 0 then { fr with w := 0 } else fr
  let fr := if fr.h < 0 then { fr with h := 0 } else fr
  let changedOrigin : Bool := decide (v.frame.x ≠ fr.x ∨ v.frame.y ≠ fr.y)
  let changedSize : Bool := decide (v.frame.w ≠ fr.w ∨ v.frame.h ≠ fr.h)
  let oldSize : Sz := ⟨v.frame.w, v.frame.h⟩
  let v1 := { v with frame := fr, bounds := { v.bounds with w := fr.w, h := fr.h } }
  let v1 := if changedSize && v1.isRotatedOrScaledFromBase then
    updateBoundsMatrixFlag v1 else v1
  (v1, changedSize || changedOrigin, oldSize)

/-- resizeSubviewsWithOldSize: — a no-op unless autoresizing is enabled
and the receiver has not been rotated from its base orientation;
otherwise each subview goes through resizeWithOldSuperviewSize: (the
frame arithmetic is resizeNewFrame, none modelling its early return)
and the computed frame is applied through setFrame:, passed here as the
callback recur (the recursive occurrence of setFrame at the next fuel
level). -/
def resizeStage (recur : Rect → FTree → FTree) (oldSize : Sz) : FTree → FTree
  | .node v2 cs2 =>
    if v2.autoresizesSubviews = false ∨ v2.isRotatedFromBase = true then .node v2 cs2
    else
      .node v2 (cs2.map fun c =>
        match resizeNewFrame ⟨v2.frame.w, v2.frame.h⟩ oldSize v2.flipped c.root with
        | none => c
        | some nf => recur nf c)

/-- setFrame: — apply the local update; on any origin or size change,
invalidate the cached coordinates of the receiver and all its
descendants (only when currently valid) and autoresize the subviews
(resizeStage). The fuel argument bounds the recursion depth of the
autoresize cascade; any fuel at least the height of the tree is enough
(an exhausted fuel returns the subtree unchanged). -/
def setFrame : Nat → Rect → FTree → FTree
  | 0, _, t => t
  | fuel + 1, frameRect, .node v cs =>
    let u := setFrameUpdate frameRect v
    if u.2.1 then
      resizeStage (setFrame fuel) u.2.2
        (if u.1.coordinatesValid then invalidateCoordinates (.node u.1 cs)
         else .node u.1 cs)
    else .node u.1 cs

/-- Negative width/height clamping of setFrame: on its argument. -/
def clampRect (r : Rect) : Rect :=
  let r := if r.w < 0 then { r with w := 0 } else r
  if r.h < 0 then { r with h := 0 } else r

/-- Whether setFrame: with argument R observes an origin or size change
on view v (computed against the clamped rect, as the source does after
clamping). -/
def frameChanged (R : Rect) (v : FNode) : Bool :=
  decide (v.frame.w ≠ (clampRect R).w ∨ v.frame.h ≠ (clampRect R).h) ||
    decide (v.frame.x ≠ (clampRect R).x ∨ v.frame.y ≠ (clampRect R).y)

mutual

/-- Every cached transform in the subtree is invalid. -/
def allInvalid : FTree → Bool
  | .node v cs => !v.coordinatesValid && allInvalidList cs

def allInvalidList : List FTree → Bool
  | [] => true
  | c :: rest => allInvalid c && allInvalidList rest

end

mutual

/-- Cache validity is downward closed: an invalid node has no valid
descendant. This is the invariant the short-circuiting recursion of
_invalidateCoordinates relies on (and _rebuildCoordinates restores a
parent's cache before validating a child). -/
def downClosed : FTree → Bool
  | .node v cs =>
    downClosedList cs && (v.coordinatesValid || rootsInvalid cs)

def downClosedList : List FTree → Bool
  | [] => true
  | c :: rest => downClosed c && downClosedList rest

def rootsInvalid : List FTree → Bool
  | [] => true
  | c :: rest => !c.root.coordinatesValid && rootsInvalid rest

end

end FrameModel


namespace FrameModel

open GeomQ

/-- A leaf view with a valid transform cache and a 10 by 10 frame
(autoresizing defaults as set up by initWithFrame:). -/
def validLeaf : FNode :=
  ⟨NSMakeRect 0 0 10 10, NSMakeRect 0 0 10 10, true, true, 0, false, false, false⟩

/-- A two-level tree: a valid parent with one valid subview. -/
def validPair : FTree :=
  FTree.node validLeaf [FTree.node { validLeaf with frame := NSMakeRect 1 1 4 4 } []]

end FrameModel


/-!
## Tree mutation (addSubview: / removeFromSuperview / isDescendantOf:)
-/

namespace TreeModel

/-- The tree-structural state of a view: the weak superview and window
back-references and the owned subview list. Views are identified by
numbers (the source compares them by object identity). Display and
cursor side effects of attach/detach (setNeedsDisplay*,
resetCursorRects, responder links) live outside this state and are
treated in the display model. -/
structure WNode where
  superview : Option Nat
  subviews : List Nat
  window : Option Nat
  deriving Repr, DecidableEq

/-- A world of views, keyed by identity. -/
def World : Type := List (Nat × WNode)

def lookup (w : World) (i : Nat) : Option WNode :=
  List.lookup i w

def updateW (w : World) (i : Nat) (v : WNode) : World :=
  w.map fun p => if p.1 = i then (i, v) else p

/-- isDescendantOf: — yes if aView is the receiver, no at the top of the
superview chain, otherwise recurse into the superview. The fuel bounds
the walk (the source recursion is unbounded; any fuel beyond the chain
length is enough). -/
def isDescendantOf (w : World) : Nat → Nat → Nat → Bool
  | 0, _, _ => false
  | fuel + 1, self, aView =>
    if self = aView then true
    else
      match lookup w self with
      | none => false
      | some v =>
        match v.superview with
        | none => false
        | some sup => if sup = aView then true else isDescendantOf w fuel sup aView

/-- viewWillMoveToWindow: — early return when the window is unchanged,
otherwise store the new window and recurse into the subviews (cursor
rects, drag types and the cache invalidation it also performs live in
the other models). -/
def setWindowRec : Nat → Option Nat → Nat → World → World
  | 0, _, _, w => w
  | fuel + 1, newWin, i, w =>
    match lookup w i with
    | none => w
    | some v =>
      if v.window == newWin then w
      else
        let w1 := updateW w i { v with window := newWin }
        v.subviews.foldl (fun acc j => setWindowRec fuel newWin j acc) w1

/-- removeSubview: — clear the subview's superview reference, notify it
of the nil window (recursive window clearing), and take it out of the
receiver's subview list (removeObjectIdenticalTo:). First-responder
hand-off and the needs-display clearing concern window and display
state outside this model. -/
def removeSubview (fuel : Nat) (w : World) (self aView : Nat) : World :=
  let w := match lookup w aView with
    | none => w
    | some v => updateW w aView { v with superview := none }
  let w := setWindowRec fuel none aView w
  let w := match lookup w aView with
    | none => w
    | some v => updateW w aView { v with superview := none }
  match lookup w self with
  | none => w
  | some v => updateW w self { v with subviews := v.subviews.filter (fun j => j ≠ aView) }

/-- removeFromSuperview — delegate to the superview's removeSubview:
(the dirty-rect marking it performs first is display state). -/
def removeFromSuperview (fuel : Nat) (w : World) (i : Nat) : World :=
  match lookup w i with
  | none => w
  | some v =>
    match v.superview with
    | none => w
    | some sup => removeSubview fuel w sup i

/-- The NSInvalidArgumentException raises of addSubview:. -/
inductive AddError where
  | nilSubview
  | wouldCreateLoop
  deriving Repr, DecidableEq

/-- addSubview: — raise on a nil argument, raise when the receiver is a
descendant of the argument (a cycle would form); both checks precede
every mutation, so a failed call returns the world unchanged. On
success: detach the argument from its old superview, propagate the
receiver's window into it recursively, set its superview reference and
append it to the receiver's subview list. -/
def addSubview (fuel : Nat) (w : World) (self : Nat) (aView : Option Nat) :
    Option AddError × World :=
  match aView with
  | none => (some .nilSubview, w)
  | some v =>
    if isDescendantOf w fuel self v then (some .wouldCreateLoop, w)
    else
      let w1 := removeFromSuperview fuel w v
      let selfWin := match lookup w1 self with
        | none => none
        | some s => s.window
      let w2 := setWindowRec fuel selfWin v w1
      let w3 := match lookup w2 v with
        | none => w2
        | some vv => updateW w2 v { vv with superview := some self }
      let w4 := match lookup w3 self with
        | none => w3
        | some s => updateW w3 self { s with subviews := s.subviews ++ [v] }
      (none, w4)

/-- A world with a two-view chain: view 0 owns view 1 inside window 7. -/
def chainWorld : World :=
  [(0, ⟨none, [1], some 7⟩), (1, ⟨some 0, [], some 7⟩)]

end TreeModel


/-!
## Display-invalidation engine (setNeedsDisplayInRect: / displayIfNeeded)

The display pass walks the subtree top-down; the state a view reads from
its superview chain (the superview's rebuilt to-window matrix and visible
rect, the window's presence/realization, hidden ancestors) is passed as
an explicit context, and cached coordinate values are represented by
their rebuilt values (the pass rebuilds stale caches before reading
them). The mark operation walks the superview chain bottom-up; the chain
is passed as an explicit list of ancestor states, immediate parent
first.
-/

namespace DisplayModel

open GeomQ AffQ

/-- The display-relevant state of a view. -/
structure DNode where
  frame : Rect
  bounds : Rect
  invalidRect : Rect
  needsDisplay : Bool
  isOpaque : Bool
  isHidden : Bool
  frameMatrix : Aff
  frameRotated : Bool
  boundsMatrix : Aff
  flipped : Bool
  deriving Repr, DecidableEq

/-- A view with its subtree of subviews. -/
inductive DTree where
  | node : DNode → List DTree → DTree

def DTree.root : DTree → DNode
  | node v _ => v

def DTree.children : DTree → List DTree
  | node _ cs => cs

def DTree.firstChildState : DTree → Option DNode
  | .node _ [] => none
  | .node _ (c :: _) => some c.root

def DNode.toRNode (v : DNode) : CoordModel.RNode :=
  ⟨v.frame, v.bounds, v.frameMatrix, v.boundsMatrix, v.flipped⟩

/-- The ambient state a view inherits from its superview chain and
window during a top-down pass. -/
structure Ctx where
  parent : Option CoordModel.SuperCtx
  hasWindow : Bool
  realized : Bool
  ancestorHidden : Bool

/-- The rebuilt to-window matrix of a view under the given context. -/
def toWindowOf (ctx : Ctx) (v : DNode) : Aff :=
  (CoordModel.rebuildCoordinates ctx.hasWindow ctx.parent v.toRNode).1

/-- The rebuilt from-window matrix of a view under the given context. -/
def fromWindowOf (ctx : Ctx) (v : DNode) : Aff :=
  (CoordModel.rebuildCoordinates ctx.hasWindow ctx.parent v.toRNode).2.1

/-- The rebuilt visible rect of a view under the given context. -/
def visibleOf (ctx : Ctx) (v : DNode) : Rect :=
  (CoordModel.rebuildCoordinates ctx.hasWindow ctx.parent v.toRNode).2.2

/-- canDraw — the window exists, is realized (nonzero window number) and
neither the view nor an ancestor is hidden (viewIsPrinting is nil in
normal operation). -/
def canDraw (ctx : Ctx) (v : DNode) : Bool :=
  ctx.realized && !(v.isHidden || ctx.ancestorHidden)

/-- The context a subview of v inherits. -/
def childCtx (ctx : Ctx) (v : DNode) : Ctx :=
  ⟨some ⟨toWindowOf ctx v, visibleOf ctx v, v.flipped⟩,
   ctx.hasWindow, ctx.realized, ctx.ancestorHidden || v.isHidden⟩

/-- Modelled from the spec: boundingRectFor:result: (an NSAffineTransform
addition, not under src/) — per the spec's rule for rotated rectangles,
the bounding box of the four transformed corners. -/
def boundingRectFor (m : Aff) (r : Rect) : Rect :=
  convertRectUsingMatrices r m Aff.identity

/-- The subview loop of displayIfNeededInRectIgnoringOpacity: (source
lines with the ivar hack): for each subview overlapping the redrawn
rect, mark it dirty with the overlap converted into its coordinates,
then recurse (through the callback recur, the recursive occurrence of
displayIfNeededInRectIgnoringOpacity:) into any subview needing
display, restricting to the part of aRect over the subview. Returns
the updated subviews and whether one of them still needs display. -/
def displaySubviewsLoop (recur : Ctx → Rect → DTree → DTree) (selfToWindow : Aff)
    (cctx : Ctx) (aRect redrawRect : Rect) (aRectEqRedraw : Bool) :
    List DTree → List DTree × Bool
  | [] => ([], false)
  | sub :: rest =>
    let subviewFrame := sub.root.frame
    let subviewFrame := if sub.root.frameRotated then
      boundingRectFor sub.root.frameMatrix subviewFrame else subviewFrame
    let isect := NSIntersectionRect redrawRect subviewFrame
    let conv : Option Rect :=
      if NSIsEmptyRect isect = false then
        some (convertRectUsingMatrices isect selfToWindow (fromWindowOf cctx sub.root))
      else none
    let sub1 := match conv with
      | some ic =>
        let r1 := { sub.root with needsDisplay := true }
        DTree.node { r1 with invalidRect := NSUnionRect r1.invalidRect ic } sub.children
      | none => sub
    let sub2 :=
      if sub1.root.needsDisplay then
        let isect2 := match conv with
          | some ic =>
            if aRectEqRedraw then ic
            else convertRectUsingMatrices (NSIntersectionRect aRect subviewFrame)
              selfToWindow (fromWindowOf cctx sub.root)
          | none => convertRectUsingMatrices (NSIntersectionRect aRect subviewFrame)
              selfToWindow (fromWindowOf cctx sub.root)
        recur cctx isect2 sub1
      else sub1
    let (rest2, restNeeds) :=
      displaySubviewsLoop recur selfToWindow cctx aRect redrawRect aRectEqRedraw rest
    (sub2 :: rest2, sub2.root.needsDisplay || restNeeds)

/-- displayIfNeededInRectIgnoringOpacity: — bail out unless the view can
draw and needs display; clip the requested rect to the visible rect,
draw the overlap with the pending invalid rect (the draw hook is the
no-op NSView drawRect:, and focus locking/flushing are window-side
effects), push the redrawn area into overlapping subviews and recurse
into dirty ones; afterwards, clear invalidRect when the handled rect
covers everything that needed display (inheriting the subviews' dirty
state), and clear needsDisplay when the whole visible rect was
handled. The fuel bounds the recursion depth (any fuel at least the
height of the tree is enough). -/
def displayIfNeededInRectIgnoringOpacity : Nat → Ctx → Rect → DTree → DTree
  | 0, _, _, t => t
  | fuel + 1, ctx, aRect0, .node v cs =>
    if canDraw ctx v = false then .node v cs
    else if v.needsDisplay then
      let vis := visibleOf ctx v
      let aRect := NSIntersectionRect aRect0 vis
      let redrawRect := NSIntersectionRect aRect v.invalidRect
      let neededRect := NSIntersectionRect vis v.invalidRect
      let res := displaySubviewsLoop (displayIfNeededInRectIgnoringOpacity fuel)
        (toWindowOf ctx v) (childCtx ctx v) aRect redrawRect
        (NSEqualRects aRect redrawRect) cs
      let v1 :=
        if NSEqualRects aRect (NSUnionRect neededRect aRect) = true then
          { v with invalidRect := NSZeroRect, needsDisplay := res.2 }
        else v
      let v2 :=
        if v1.needsDisplay && NSEqualRects aRect (NSUnionRect vis aRect) then
          { v1 with needsDisplay := false }
        else v1
      .node v2 res.1
    else .node v cs

/-- displayIfNeededIgnoringOpacity: — display the pending invalid rect
clipped to the visible rect if any, then recurse into any subviews
still needing display and drop the needs-display flag. -/
def displayIfNeededIgnoringOpacity : Nat → Ctx → DTree → DTree
  | 0, _, t => t
  | fuel + 1, ctx, .node v cs =>
    if v.needsDisplay then
      let rect := NSIntersectionRect v.invalidRect (visibleOf ctx v)
      let t1 := if NSIsEmptyRect rect = false then
        displayIfNeededInRectIgnoringOpacity (fuel + 1) ctx rect (.node v cs)
        else .node v cs
      match t1 with
      | .node v1 cs1 =>
        if v1.needsDisplay then
          .node { v1 with needsDisplay := false }
            (cs1.map fun sub =>
              if sub.root.needsDisplay then
                displayIfNeededIgnoringOpacity fuel (childCtx ctx v1) sub
              else sub)
        else .node v1 cs1
    else .node v cs

/-- displayIfNeeded, for an opaque receiver: when the view needs display,
an opaque view displays itself ignoring opacity (the branch for a
non-opaque receiver redirects into its opaque ancestor, a view outside
the subtree modelled by a DTree). -/
def displayIfNeededOpaque (fuel : Nat) (ctx : Ctx) (t : DTree) : DTree :=
  if t.root.needsDisplay then displayIfNeededIgnoringOpacity fuel ctx t else t

/-- The to-window matrix of a view given the states of its ancestor
chain (immediate parent first): the matrix part of _rebuildCoordinates
composed along the chain — identity with no superview, otherwise the
superview's matrix with the frame matrix, the flip correction and the
bounds matrix prepended. -/
def toWindowAt : List DNode → DNode → Aff
  | [], _ => Aff.identity
  | p :: rest, v =>
    let m := (toWindowAt rest p).prepend v.frameMatrix
    let m := if v.flipped != p.flipped then m.prepend (flipM v.frame.h) else m
    m.prepend v.boundsMatrix

/-- opaqueAncestor — how many links up the chain the nearest opaque view
(including self) sits; with nothing opaque, the root of the chain. -/
def opaqueAncestorIdx : DNode → List DNode → Nat
  | _, [] => 0
  | current, next :: rest => if current.isOpaque then 0 else 1 + opaqueAncestorIdx next rest

/-- _setNeedsDisplayInRect_real: on the view self with ancestor chain
anc (immediate parent first) and window dirty flag wf. Clip the rect
to bounds and union it into invalidRect; if that changes anything, set
needsDisplay, and either tell the window it has dirty views (self is
its own opaque ancestor) or convert the invalid rect into the nearest
opaque ancestor and recurse the mark into it; finally — in every case —
walk the whole superview chain setting needsDisplay. Returns the
updated self, chain and window flag. The fuel bounds the chain
recursion (any fuel beyond the chain length is enough). -/
def setNeedsDisplayInRect : Nat → Rect → DNode → List DNode → Bool →
    DNode × List DNode × Bool
  | 0, _, self, anc, wf => (self, anc, wf)
  | fuel + 1, invalidRect0, self, anc, wf =>
    let invalidRect := NSIntersectionRect invalidRect0 self.bounds
    let invalidRect := NSUnionRect self.invalidRect invalidRect
    let step : DNode × List DNode × Bool :=
      if NSEqualRects invalidRect self.invalidRect = false then
        let self2 := { self with needsDisplay := true, invalidRect := invalidRect }
        let i := opaqueAncestorIdx self anc
        if i = 0 then
          (self2, anc, true)
        else
          match anc.drop (i - 1) with
          | [] => (self2, anc, wf)
          | fo :: foAnc =>
            let conv := convertRectUsingMatrices self2.invalidRect
              (toWindowAt anc self2) (Aff.inv (toWindowAt foAnc fo))
            let res := setNeedsDisplayInRect fuel conv fo foAnc wf
            (self2, anc.take (i - 1) ++ res.1 :: res.2.1, res.2.2)
      else (self, anc, wf)
    (step.1, step.2.1.map fun a => { a with needsDisplay := true }, step.2.2)

/-- The flag == NO arm of _setNeedsDisplay_real: — clear needsDisplay and
invalidRect unconditionally (descendants and ancestors untouched). -/
def setNeedsDisplayFalseNode (v : DNode) : DNode :=
  { v with needsDisplay := false, invalidRect := NSZeroRect }

end DisplayModel


namespace DisplayModel

open GeomQ AffQ

/-- A view with a 10 by 10 frame, a pending 5 by 5 invalid rect, and
identity matrices (as a freshly attached unrotated view has). -/
def markSelf : DNode :=
  ⟨NSMakeRect 0 0 10 10, NSMakeRect 0 0 10 10, NSMakeRect 0 0 5 5, true, true,
   false, Aff.identity, false, Aff.identity, false⟩

/-- A clean 40 by 40 superview with no pending display work. -/
def markParent : DNode :=
  ⟨NSMakeRect 0 0 40 40, NSMakeRect 0 0 40 40, NSZeroRect, false, true,
   false, Aff.identity, false, Aff.identity, false⟩

end DisplayModel


namespace DisplayModel

open GeomQ AffQ

/-- The context of a view sitting directly in a realized window (no
superview, nothing hidden above). -/
def rootCtx : Ctx := ⟨none, true, true, false⟩

/-- The context of a view whose superview chain contributes an identity
transform and a 50 by 50 visible region in a realized window. -/
def cexCtx : Ctx := ⟨some ⟨Aff.identity, NSMakeRect 0 0 50 50, false⟩, true, true, false⟩

/-- An opaque unrotated 100 by 100 view, clean. -/
def cexSelf : DNode :=
  ⟨NSMakeRect 0 0 100 100, NSMakeRect 0 0 100 100, NSZeroRect, false, true,
   false, Aff.identity, false, Aff.identity, false⟩

/-- cexSelf after marking the rect (60,60,10,10), which lies inside its
bounds but outside the 50 by 50 visible region. -/
def cexMarked : DNode :=
  ⟨NSMakeRect 0 0 100 100, NSMakeRect 0 0 100 100, NSMakeRect 60 60 10 10,
   true, true, false, Aff.identity, false, Aff.identity, false⟩

/-- A rotation by the 3-4-5 angle (cosine 3/5, sine 4/5) as a bounds
matrix. -/
def rotB : Aff := ⟨3 / 5, 4 / 5, -(4 / 5), 3 / 5, 0, 0⟩

/-- An opaque 100 by 100 root view with its whole bounds pending
redraw. -/
def c8Root : DNode :=
  ⟨NSMakeRect 0 0 100 100, NSMakeRect 0 0 100 100, NSMakeRect 0 0 100 100,
   true, true, false, Aff.identity, false, Aff.identity, false⟩

/-- A hidden clean subview at (40,40) of size 10 by 10 whose bounds
matrix is rotated (setBoundsRotation), with the frame matrix
translating to its frame origin. -/
def c8Child : DNode :=
  ⟨NSMakeRect 40 40 10 10, NSMakeRect 0 0 10 10, NSZeroRect, false, false,
   true, ⟨1, 0, 0, 1, 40, 40⟩, false, rotB, false⟩

def c8Tree : DTree := .node c8Root [.node c8Child []]

end DisplayModel

/-!
# Theorems

Helper lemmas about the embedded primitives, followed by the claim
theorems with their witnesses and counterexamples.
-/

namespace GeomQ

theorem subRect_zero (b : Rect) : subRect NSZeroRect b := by
  left; decide

/-- An intersection with b always lies inside b. -/
theorem subRect_inter_right (a b : Rect) : subRect (NSIntersectionRect a b) b := by
  unfold NSIntersectionRect
  split
  · exact subRect_zero b
  · right
    refine ⟨le_max_right _ _, le_max_right _ _, ?_, ?_⟩
    · show max a.x b.x + (min a.maxX b.maxX - max a.x b.x) ≤ b.maxX
      have := min_le_right a.maxX b.maxX
      linarith
    · show max a.y b.y + (min a.maxY b.maxY - max a.y b.y) ≤ b.maxY
      have := min_le_right a.maxY b.maxY
      linarith

/-- A union of two rects inside b stays inside b. -/
theorem subRect_union (i j b : Rect) (hi : subRect i b) (hj : subRect j b) :
    subRect (NSUnionRect i j) b := by
  unfold NSUnionRect
  split
  · exact subRect_zero b
  · split
    · exact hj
    · split
      · exact hi
      · rename_i hboth hie hje
        rcases hi with hiE | ⟨hi1, hi2, hi3, hi4⟩
        · exact absurd hiE (by simpa using hie)
        rcases hj with hjE | ⟨hj1, hj2, hj3, hj4⟩
        · exact absurd hjE (by simpa using hje)
        right
        refine ⟨le_min hi1 hj1, le_min hi2 hj2, ?_, ?_⟩
        · show min i.x j.x + (max i.maxX j.maxX - min i.x j.x) ≤ b.maxX
          have := max_le hi3 hj3
          linarith
        · show min i.y j.y + (max i.maxY j.maxY - min i.y j.y) ≤ b.maxY
          have := max_le hi4 hj4
          linarith

/-- NSIntersectionRect is commutative. -/
theorem inter_comm (a b : Rect) : NSIntersectionRect a b = NSIntersectionRect b a := by
  unfold NSIntersectionRect
  rcases a with ⟨ax, ay, aw, ah⟩
  rcases b with ⟨bx, byy, bw, bh⟩
  simp only [Rect.maxX, Rect.maxY, Rect.minX, Rect.minY]
  by_cases h1 : ax + aw ≤ bx <;> by_cases h2 : bx + bw ≤ ax <;>
    by_cases h3 : ay + ah ≤ byy <;> by_cases h4 : byy + bh ≤ ay <;>
      simp [h1, h2, h3, h4, max_comm, min_comm]

/-- A nonempty intersection is a fixed point of intersecting with the same
right argument again. -/
theorem inter_inter_self (a b : Rect)
    (hne : NSIsEmptyRect (NSIntersectionRect a b) = false) :
    NSIntersectionRect (NSIntersectionRect a b) b = NSIntersectionRect a b := by
  rcases a with ⟨ax, ay, aw, ah⟩
  rcases b with ⟨bx, byy, bw, bh⟩
  by_cases hsep : ((ax : ℚ) + aw ≤ bx) ∨ (bx + bw ≤ ax) ∨ (ay + ah ≤ byy) ∨ (byy + bh ≤ ay)
  · exfalso
    unfold NSIntersectionRect at hne
    rw [if_pos (by simp only [Rect.maxX, Rect.maxY, Rect.minX, Rect.minY,
      Bool.or_eq_true, decide_eq_true_eq]; tauto)] at hne
    simp [NSIsEmptyRect, NSZeroRect] at hne
  · have hAB : NSIntersectionRect ⟨ax, ay, aw, ah⟩ ⟨bx, byy, bw, bh⟩ =
        ⟨max ax bx, max ay byy, min (ax + aw) (bx + bw) - max ax bx,
          min (ay + ah) (byy + bh) - max ay byy⟩ := by
      unfold NSIntersectionRect
      rw [if_neg (by simp only [Rect.maxX, Rect.maxY, Rect.minX, Rect.minY,
        Bool.or_eq_true, decide_eq_true_eq]; tauto)]
      simp [Rect.maxX, Rect.maxY]
    push_neg at hsep
    obtain ⟨hs1, hs2, hs3, hs4⟩ := hsep
    rw [hAB] at hne ⊢
    have hwh : (0 : ℚ) < min (ax + aw) (bx + bw) - max ax bx ∧
        (0 : ℚ) < min (ay + ah) (byy + bh) - max ay byy := by
      simpa [NSIsEmptyRect] using hne
    obtain ⟨hw, hh⟩ := hwh
    have hx1 : max ax bx < min (ax + aw) (bx + bw) := by linarith
    have hy1 : max ay byy < min (ay + ah) (byy + bh) := by linarith
    unfold NSIntersectionRect
    rw [if_neg]
    · have e1 : max (max ax bx) bx = max ax bx := by
        rw [max_eq_left (le_max_right ax bx)]
      have e2 : max (max ay byy) byy = max ay byy := by
        rw [max_eq_left (le_max_right ay byy)]
      have e3 : max ax bx + (min (ax + aw) (bx + bw) - max ax bx) =
          min (ax + aw) (bx + bw) := by ring
      have e4 : max ay byy + (min (ay + ah) (byy + bh) - max ay byy) =
          min (ay + ah) (byy + bh) := by ring
      simp only [Rect.maxX, Rect.maxY, e1, e2, e3, e4]
      have e5 : min (min (ax + aw) (bx + bw)) (bx + bw) = min (ax + aw) (bx + bw) := by
        rw [min_eq_left (min_le_right _ _)]
      have e6 : min (min (ay + ah) (byy + bh)) (byy + bh) = min (ay + ah) (byy + bh) := by
        rw [min_eq_left (min_le_right _ _)]
      rw [e5, e6]
    · simp only [Rect.maxX, Rect.maxY, Rect.minX, Rect.minY, Bool.or_eq_true,
        decide_eq_true_eq, not_or]
      have e3 : max ax bx + (min (ax + aw) (bx + bw) - max ax bx) =
          min (ax + aw) (bx + bw) := by ring
      have e4 : max ay byy + (min (ay + ah) (byy + bh) - max ay byy) =
          min (ay + ah) (byy + bh) := by ring
      rw [e3, e4]
      push_neg
      refine ⟨⟨⟨?_, ?_⟩, ?_⟩, ?_⟩
      · calc (bx : ℚ) ≤ max ax bx := le_max_right _ _
          _ < min (ax + aw) (bx + bw) := hx1
      · calc max ax bx < min (ax + aw) (bx + bw) := hx1
          _ ≤ bx + bw := min_le_right _ _
      · calc (byy : ℚ) ≤ max ay byy := le_max_right _ _
          _ < min (ay + ah) (byy + bh) := hy1
      · calc max ay byy < min (ay + ah) (byy + bh) := hy1
          _ ≤ byy + bh := min_le_right _ _

/-- The union of a nonempty rect with itself is itself. -/
theorem union_self (r : Rect) (hne : NSIsEmptyRect r = false) :
    NSUnionRect r r = r := by
  unfold NSUnionRect
  rw [if_neg (by simp [hne]), if_neg (by simp [hne]), if_neg (by simp [hne])]
  rcases r with ⟨rx, ry, rw', rh⟩
  simp [Rect.maxX, Rect.maxY]

end GeomQ

namespace AffQ

open GeomQ

theorem Aff.apply_prepend (m f : Aff) (p : Pt) :
    (m.prepend f).apply p = m.apply (f.apply p) := by
  simp only [Aff.apply, Aff.prepend, Pt.mk.injEq]
  constructor <;> ring

theorem Aff.apply_identity (p : Pt) : Aff.identity.apply p = p := by
  simp [Aff.apply, Aff.identity]

theorem Aff.inv_apply_apply (t : Aff) (p : Pt) (h : t.det ≠ 0) :
    t.inv.apply (t.apply p) = p := by
  rcases p with ⟨px, py⟩
  simp only [Aff.inv, Aff.apply, Aff.det, Pt.mk.injEq] at *
  constructor <;> (field_simp; ring)

theorem Aff.apply_inv_apply (t : Aff) (p : Pt) (h : t.det ≠ 0) :
    t.apply (t.inv.apply p) = p := by
  rcases p with ⟨px, py⟩
  simp only [Aff.inv, Aff.apply, Aff.det, Pt.mk.injEq] at *
  constructor <;> (field_simp; ring)

end AffQ


namespace KeyViewModel

/-- If some position of the chain walk satisfies the stopping test within
the available fuel, the loop terminates and its result satisfies the
stopping test. -/
theorem walk_reaches (c : Chain) (origin : Nat) :
    ∀ fuel k st, k < fuel → stops c origin (orbitFrom c k st) = true →
      ∃ r, walk c origin fuel st = some r ∧ stops c origin r = true := by
  intro fuel
  induction fuel with
  | zero => intro k st hk _; exact absurd hk (Nat.not_lt_zero k)
  | succ n ih =>
    intro k st hk hstop
    by_cases hs : stops c origin st = true
    · exact ⟨st, by simp [walk, hs], hs⟩
    · match k with
      | 0 =>
        simp only [orbitFrom] at hstop
        exact absurd hstop hs
      | k0 + 1 =>
        obtain ⟨r, hr, hstopr⟩ :=
          ih k0 (st.bind c.next) (by omega) (by simpa [orbitFrom] using hstop)
        exact ⟨r, by simp [walk, hs, hr], hstopr⟩

/-- C7 (amended): the nextValidKeyView (and previousValidKeyView) loop
terminates whenever the chain walk from the origin reaches, within k
steps, a chain end (nil), the origin view itself, or a view able to
become key view; the returned value is such a stopping point (nil at a
chain end, the origin view — not nil — when the walk comes back to the
origin, or the first eligible view). Termination is conditional on the
walk meeting one of the stop conditions: a cycle of ineligible views
that does not pass through the origin is walked forever. -/
theorem claim_C7_nextValidKeyView_terminates (c : Chain) (origin fuel k : Nat)
    (hk : k < fuel)
    (hstop : stops c origin (orbitFrom c k (c.next origin)) = true) :
    ∃ r, nextValidKeyView c origin fuel = some r ∧ stops c origin r = true :=
  walk_reaches c origin fuel k (c.next origin) hk hstop

theorem claim_C7_witness :
    (2 < 4 ∧ stops kvCycle3 0 (orbitFrom kvCycle3 2 (kvCycle3.next 0)) = true) ∧
      ∃ r, nextValidKeyView kvCycle3 0 4 = some r ∧ stops kvCycle3 0 r = true :=
  ⟨⟨by decide, by decide⟩,
    claim_C7_nextValidKeyView_terminates kvCycle3 0 4 2 (by decide) (by decide)⟩

/-- C7 counterexample: on the loop A→B→C→A (views 0→1→2→0) with every
view ineligible, nextValidKeyView of A terminates but evaluates to view
A itself — the origin — not to nil as the claim states. -/
theorem claim_C7_counterexample :
    nextValidKeyView kvCycle3 0 10 = some (some 0) ∧
      (some (some 0) : Option (Option Nat)) ≠ some none := by
  exact ⟨by decide, by decide⟩

end KeyViewModel

namespace DecoModel

open GeomQ

/-- C9: with a style mask combining titled, closable, miniaturizable and
resizable, on a decoration frame of width 200, the recomputed title bar
rect is non-empty with the theme's titlebar height and the resize bar
rect has the theme's resize-bar height, and both span the full width
200 of the frame. -/
theorem claim_C9_chrome_rects (theme : Theme) (fh : ℚ)
    (hth : 0 < theme.titlebarHeight) :
    NSIsEmptyRect (initWithFrameWindow theme (NSMakeRect 0 0 200 fh)
        fullStyleMask).titleBarRect = false ∧
    (initWithFrameWindow theme (NSMakeRect 0 0 200 fh)
        fullStyleMask).titleBarRect.h = theme.titlebarHeight ∧
    (initWithFrameWindow theme (NSMakeRect 0 0 200 fh)
        fullStyleMask).titleBarRect.x = 0 ∧
    (initWithFrameWindow theme (NSMakeRect 0 0 200 fh)
        fullStyleMask).titleBarRect.w = 200 ∧
    (initWithFrameWindow theme (NSMakeRect 0 0 200 fh)
        fullStyleMask).resizeBarRect.h = theme.resizebarHeight ∧
    (initWithFrameWindow theme (NSMakeRect 0 0 200 fh)
        fullStyleMask).resizeBarRect.x = 0 ∧
    (initWithFrameWindow theme (NSMakeRect 0 0 200 fh)
        fullStyleMask).resizeBarRect.w = 200 := by
  have hmask : initWithFrameWindow theme (NSMakeRect 0 0 200 fh) fullStyleMask =
      updateRects theme (NSMakeRect 0 0 200 fh)
        ⟨true, true, true, true, true, NSZeroRect, NSZeroRect, NSZeroRect, NSZeroRect⟩ := by
    rfl
  rw [hmask]
  refine ⟨?_, rfl, rfl, rfl, rfl, rfl, rfl⟩
  simp only [updateRects, if_true, NSMakeRect, NSIsEmptyRect, Bool.not_eq_true',
    Bool.and_eq_false_iff, decide_eq_false_iff_not, not_lt]
  norm_num
  linarith

theorem claim_C9_witness :
    (0 : ℚ) < (Theme.mk 25 9).titlebarHeight ∧
      NSIsEmptyRect (initWithFrameWindow (Theme.mk 25 9) (NSMakeRect 0 0 200 300)
        fullStyleMask).titleBarRect = false ∧
      (initWithFrameWindow (Theme.mk 25 9) (NSMakeRect 0 0 200 300)
        fullStyleMask).titleBarRect.h = (Theme.mk 25 9).titlebarHeight ∧
      (initWithFrameWindow (Theme.mk 25 9) (NSMakeRect 0 0 200 300)
        fullStyleMask).titleBarRect.x = 0 ∧
      (initWithFrameWindow (Theme.mk 25 9) (NSMakeRect 0 0 200 300)
        fullStyleMask).titleBarRect.w = 200 ∧
      (initWithFrameWindow (Theme.mk 25 9) (NSMakeRect 0 0 200 300)
        fullStyleMask).resizeBarRect.h = (Theme.mk 25 9).resizebarHeight ∧
      (initWithFrameWindow (Theme.mk 25 9) (NSMakeRect 0 0 200 300)
        fullStyleMask).resizeBarRect.x = 0 ∧
      (initWithFrameWindow (Theme.mk 25 9) (NSMakeRect 0 0 200 300)
        fullStyleMask).resizeBarRect.w = 200 :=
  ⟨by norm_num, claim_C9_chrome_rects (Theme.mk 25 9) 300 (by norm_num)⟩

end DecoModel

namespace TrackModel

open GeomQ AffQ

/-- The tag scan of addTrackingRect dominates the accumulator and every
scanned tag. -/
theorem foldl_tag_ge (tr : List TRect) :
    ∀ acc : Int,
      acc ≤ tr.foldl (fun t m => if m.tag > t then m.tag else t) acc ∧
      ∀ m ∈ tr, m.tag ≤ tr.foldl (fun t m => if m.tag > t then m.tag else t) acc := by
  induction tr with
  | nil => intro acc; exact ⟨le_refl acc, by simp⟩
  | cons m rest ih =>
    intro acc
    have hstep : acc ≤ (if m.tag > acc then m.tag else acc) ∧
        m.tag ≤ (if m.tag > acc then m.tag else acc) := by
      by_cases h : m.tag > acc <;> simp [h] <;> omega
    obtain ⟨ih1, ih2⟩ := ih (if m.tag > acc then m.tag else acc)
    refine ⟨le_trans hstep.1 (by simpa using ih1), ?_⟩
    intro m2 hm2
    rcases List.mem_cons.mp hm2 with h | h
    · subst h
      exact le_trans hstep.2 (by simpa using ih1)
    · simpa using ih2 m2 h

/-- The tag scan of addTrackingRect yields either the accumulator or one
of the scanned tags. -/
theorem foldl_tag_mem (tr : List TRect) :
    ∀ acc : Int,
      tr.foldl (fun t m => if m.tag > t then m.tag else t) acc = acc ∨
      ∃ m ∈ tr, tr.foldl (fun t m => if m.tag > t then m.tag else t) acc = m.tag := by
  induction tr with
  | nil => intro acc; exact Or.inl rfl
  | cons m rest ih =>
    intro acc
    rcases ih (if m.tag > acc then m.tag else acc) with h | ⟨m2, hm2, he⟩
    · by_cases hc : m.tag > acc
      · right
        refine ⟨m, List.mem_cons_self m rest, ?_⟩
        simpa [hc] using h
      · left
        simpa [hc] using h
    · right
      exact ⟨m2, List.mem_cons_of_mem m hm2, by simpa using he⟩

/-- C10: the tag returned by addTrackingRect:owner:userData:assumeInside:
is strictly greater than the tag of every tracking rect already
registered on the node (hence distinct from all of them), and equals one
plus the maximum registered tag — 1 on an empty collection, otherwise
one more than the tag of some registered rect that every other tag is
bounded by — and the new record is appended with the rect converted
into window coordinates. -/
theorem claim_C10_addTrackingRect_fresh (m1 m2 : Aff) (tr : List TRect)
    (r : Rect) (flag : Bool) (hpos : ∀ m ∈ tr, 1 ≤ m.tag) :
    (∀ m ∈ tr, m.tag < (addTrackingRect m1 m2 tr r flag).1) ∧
    ((tr = [] ∧ (addTrackingRect m1 m2 tr r flag).1 = 1) ∨
      ∃ m ∈ tr, m.tag = (addTrackingRect m1 m2 tr r flag).1 - 1) ∧
    (addTrackingRect m1 m2 tr r flag).2 =
      tr ++ [⟨convertRectUsingMatrices r m1 m2,
        (addTrackingRect m1 m2 tr r flag).1, flag⟩] := by
  obtain ⟨hacc, hge⟩ := foldl_tag_ge tr 0
  refine ⟨?_, ?_, rfl⟩
  · intro m hm
    have := hge m hm
    show m.tag < tr.foldl (fun t m => if m.tag > t then m.tag else t) 0 + 1
    omega
  · match tr, hpos with
    | [], _ => exact Or.inl ⟨rfl, rfl⟩
    | m0 :: rest, hpos =>
      rcases foldl_tag_mem (m0 :: rest) 0 with h | ⟨m2, hm2, he⟩
      · exfalso
        obtain ⟨_, hge2⟩ := foldl_tag_ge (m0 :: rest) (0 : Int)
        have h1 := hge2 m0 (List.mem_cons_self m0 rest)
        have h2 := hpos m0 (List.mem_cons_self m0 rest)
        omega
      · right
        refine ⟨m2, hm2, ?_⟩
        show m2.tag =
          (m0 :: rest).foldl (fun t m => if m.tag > t then m.tag else t) 0 + 1 - 1
        omega

theorem claim_C10_witness :
    (∀ m ∈ [TRect.mk (NSMakeRect 0 0 4 4) 1 false,
        TRect.mk (NSMakeRect 2 2 5 5) 3 true], 1 ≤ m.tag) ∧
    ((∀ m ∈ [TRect.mk (NSMakeRect 0 0 4 4) 1 false,
        TRect.mk (NSMakeRect 2 2 5 5) 3 true],
      m.tag < (addTrackingRect Aff.identity Aff.identity
        [TRect.mk (NSMakeRect 0 0 4 4) 1 false,
         TRect.mk (NSMakeRect 2 2 5 5) 3 true] (NSMakeRect 1 2 3 4) true).1) ∧
    (([TRect.mk (NSMakeRect 0 0 4 4) 1 false,
        TRect.mk (NSMakeRect 2 2 5 5) 3 true] = ([] : List TRect) ∧
      (addTrackingRect Aff.identity Aff.identity
        [TRect.mk (NSMakeRect 0 0 4 4) 1 false,
         TRect.mk (NSMakeRect 2 2 5 5) 3 true] (NSMakeRect 1 2 3 4) true).1 = 1) ∨
      ∃ m ∈ [TRect.mk (NSMakeRect 0 0 4 4) 1 false,
        TRect.mk (NSMakeRect 2 2 5 5) 3 true],
        m.tag = (addTrackingRect Aff.identity Aff.identity
          [TRect.mk (NSMakeRect 0 0 4 4) 1 false,
           TRect.mk (NSMakeRect 2 2 5 5) 3 true] (NSMakeRect 1 2 3 4) true).1 - 1) ∧
    (addTrackingRect Aff.identity Aff.identity
        [TRect.mk (NSMakeRect 0 0 4 4) 1 false,
         TRect.mk (NSMakeRect 2 2 5 5) 3 true] (NSMakeRect 1 2 3 4) true).2 =
      [TRect.mk (NSMakeRect 0 0 4 4) 1 false,
       TRect.mk (NSMakeRect 2 2 5 5) 3 true] ++
        [⟨convertRectUsingMatrices (NSMakeRect 1 2 3 4) Aff.identity Aff.identity,
          (addTrackingRect Aff.identity Aff.identity
            [TRect.mk (NSMakeRect 0 0 4 4) 1 false,
             TRect.mk (NSMakeRect 2 2 5 5) 3 true] (NSMakeRect 1 2 3 4) true).1,
          true⟩]) :=
  ⟨by decide,
    claim_C10_addTrackingRect_fresh Aff.identity Aff.identity
      [TRect.mk (NSMakeRect 0 0 4 4) 1 false,
       TRect.mk (NSMakeRect 2 2 5 5) 3 true] (NSMakeRect 1 2 3 4) true (by decide)⟩

end TrackModel


namespace AffQ

open GeomQ

/-- C3: converting a point from view A to view B and back from B to A
returns the original point, for views whose cached from-window matrices
are the inverses of their to-window matrices (the relation
_rebuildCoordinates establishes) and whose to-window matrices are
invertible. Over the exact rationals the round trip is the identity, so
it in particular holds within any floating-point tolerance. -/
theorem claim_C3_convertPoint_roundtrip (A B : CView) (p : Pt)
    (hA : A.fromWindow = A.toWindow.inv) (hB : B.fromWindow = B.toWindow.inv)
    (hdA : A.toWindow.det ≠ 0) (hdB : B.toWindow.det ≠ 0) :
    convertPointFromView A B (convertPointFromView B A p) = p := by
  unfold convertPointFromView
  rw [hA, hB, Aff.apply_inv_apply B.toWindow _ hdB, Aff.inv_apply_apply A.toWindow p hdA]

theorem claim_C3_witness :
    (CView.mk ⟨1, 0, 0, 1, 5, 7⟩ (Aff.inv ⟨1, 0, 0, 1, 5, 7⟩)).fromWindow =
        Aff.inv (CView.mk ⟨1, 0, 0, 1, 5, 7⟩ (Aff.inv ⟨1, 0, 0, 1, 5, 7⟩)).toWindow ∧
      (CView.mk ⟨2, 0, 0, 3, 1, 2⟩ (Aff.inv ⟨2, 0, 0, 3, 1, 2⟩)).fromWindow =
        Aff.inv (CView.mk ⟨2, 0, 0, 3, 1, 2⟩ (Aff.inv ⟨2, 0, 0, 3, 1, 2⟩)).toWindow ∧
      (CView.mk ⟨1, 0, 0, 1, 5, 7⟩ (Aff.inv ⟨1, 0, 0, 1, 5, 7⟩)).toWindow.det ≠ 0 ∧
      (CView.mk ⟨2, 0, 0, 3, 1, 2⟩ (Aff.inv ⟨2, 0, 0, 3, 1, 2⟩)).toWindow.det ≠ 0 ∧
      convertPointFromView (CView.mk ⟨1, 0, 0, 1, 5, 7⟩ (Aff.inv ⟨1, 0, 0, 1, 5, 7⟩))
        (CView.mk ⟨2, 0, 0, 3, 1, 2⟩ (Aff.inv ⟨2, 0, 0, 3, 1, 2⟩))
        (convertPointFromView (CView.mk ⟨2, 0, 0, 3, 1, 2⟩ (Aff.inv ⟨2, 0, 0, 3, 1, 2⟩))
          (CView.mk ⟨1, 0, 0, 1, 5, 7⟩ (Aff.inv ⟨1, 0, 0, 1, 5, 7⟩)) ⟨3, 4⟩) = ⟨3, 4⟩ :=
  ⟨rfl, rfl, by norm_num [Aff.det], by norm_num [Aff.det],
    claim_C3_convertPoint_roundtrip
      (CView.mk ⟨1, 0, 0, 1, 5, 7⟩ (Aff.inv ⟨1, 0, 0, 1, 5, 7⟩))
      (CView.mk ⟨2, 0, 0, 3, 1, 2⟩ (Aff.inv ⟨2, 0, 0, 3, 1, 2⟩))
      ⟨3, 4⟩ rfl rfl (by norm_num [Aff.det]) (by norm_num [Aff.det])⟩

end AffQ

namespace CoordModel

open GeomQ AffQ

/-- C4 (amended): after the lazy rebuild, a node with no superview has
identity to-window and from-window transforms and a visibleRect equal
to its bounds — whether or not it has a window: the zero visible rect
stored by the no-window branch is unconditionally overwritten by the
superview test that follows it. In particular a node detached from any
window does not report an empty visible rect; it reports its bounds
(see the counterexample), and a windowless node that still has a
superview is processed through the ordinary superview-composition
branch. -/
theorem claim_C4_rebuild_no_superview (hasWindow : Bool) (v : RNode) :
    rebuildCoordinates hasWindow none v = (Aff.identity, Aff.identity, v.bounds) := by
  cases hasWindow <;> rfl

/-- C4 counterexample: a standalone node (no window, no superview) with
10 by 10 bounds reports visibleRect = bounds — a non-empty rect — after
the rebuild, contradicting the claim that a node with no window has an
empty visibleRect. -/
theorem claim_C4_counterexample :
    visibleRectOf false none standaloneNode = NSMakeRect 0 0 10 10 ∧
      NSIsEmptyRect (visibleRectOf false none standaloneNode) = false := by
  exact ⟨rfl, by decide⟩

end CoordModel


namespace FrameModel

open GeomQ

theorem updateBoundsMatrixFlag_coordinatesValid (v : FNode) :
    (updateBoundsMatrixFlag v).coordinatesValid = v.coordinatesValid := by
  unfold updateBoundsMatrixFlag
  simp only []
  split_ifs <;> rfl

theorem updateBoundsMatrixFlag_frame (v : FNode) :
    (updateBoundsMatrixFlag v).frame = v.frame := by
  unfold updateBoundsMatrixFlag
  simp only []
  split_ifs <;> rfl

mutual

theorem downClosed_invalid : ∀ t : FTree, downClosed t = true →
    t.root.coordinatesValid = false → allInvalid t = true
  | .node v cs, hdc, hv => by
    unfold downClosed at hdc
    unfold allInvalid
    simp only [FTree.root] at hv
    simp only [Bool.and_eq_true, Bool.or_eq_true] at hdc
    obtain ⟨hdcl, hval⟩ := hdc
    rcases hval with hval | hval
    · rw [hv] at hval; cases hval
    · simp [hv, downClosedList_invalid cs hdcl hval]

theorem downClosedList_invalid : ∀ cs : List FTree, downClosedList cs = true →
    rootsInvalid cs = true → allInvalidList cs = true
  | [], _, _ => rfl
  | c :: rest, hdc, hv => by
    unfold downClosedList at hdc
    unfold rootsInvalid at hv
    unfold allInvalidList
    simp only [Bool.and_eq_true, Bool.not_eq_true'] at hdc hv ⊢
    exact ⟨downClosed_invalid c hdc.1 hv.1, downClosedList_invalid rest hdc.2 hv.2⟩

end

mutual

theorem allInvalid_invalidate : ∀ t : FTree, downClosed t = true →
    allInvalid (invalidateCoordinates t) = true
  | .node v cs, hdc => by
    have hdcl : downClosedList cs = true := by
      unfold downClosed at hdc
      simp only [Bool.and_eq_true] at hdc
      exact hdc.1
    unfold invalidateCoordinates
    by_cases hv : v.coordinatesValid = true
    · rw [if_pos hv]
      unfold allInvalid
      simp only [Bool.not_false, Bool.true_and]
      exact allInvalidList_invalidateChildren cs hdcl
    · rw [if_neg hv]
      exact downClosed_invalid (.node v cs) hdc (by
        simp only [FTree.root]
        exact Bool.not_eq_true _ ▸ Bool.eq_false_iff.mpr hv)

theorem allInvalidList_invalidateChildren : ∀ cs : List FTree, downClosedList cs = true →
    allInvalidList (invalidateChildren cs) = true
  | [], _ => rfl
  | sub :: rest, hdc => by
    unfold downClosedList at hdc
    simp only [Bool.and_eq_true] at hdc
    unfold invalidateChildren allInvalidList
    simp only [Bool.and_eq_true]
    constructor
    · by_cases hs : sub.root.coordinatesValid = true
      · rw [if_pos hs]
        exact allInvalid_invalidate sub hdc.1
      · rw [if_neg hs]
        exact downClosed_invalid sub hdc.1 (Bool.eq_false_iff.mpr hs)
    · exact allInvalidList_invalidateChildren rest hdc.2

end

theorem setFrameUpdate_coordinatesValid (R : Rect) (v : FNode) :
    (setFrameUpdate R v).1.coordinatesValid = v.coordinatesValid := by
  unfold setFrameUpdate
  simp only []
  split_ifs <;> simp [updateBoundsMatrixFlag_coordinatesValid]

theorem setFrameUpdate_frame (R : Rect) (v : FNode) :
    (setFrameUpdate R v).1.frame = clampRect R := by
  unfold setFrameUpdate clampRect
  simp only []
  split_ifs <;> simp [updateBoundsMatrixFlag_frame]

theorem setFrameUpdate_changed (R : Rect) (v : FNode) :
    (setFrameUpdate R v).2.1 = frameChanged R v := by
  unfold setFrameUpdate frameChanged clampRect
  simp only []

theorem invalidate_node_valid (v : FNode) (cs : List FTree)
    (hv : v.coordinatesValid = true) :
    invalidateCoordinates (.node v cs) =
      .node { v with coordinatesValid := false } (invalidateChildren cs) := by
  unfold invalidateCoordinates
  rw [if_pos hv]

/-- Mapping an allInvalid-preserving function over an all-invalid list of
subtrees keeps them all invalid. -/
theorem allInvalidList_map (g : FTree → FTree)
    (hg : ∀ c, allInvalid c = true → allInvalid (g c) = true) :
    ∀ cs, allInvalidList cs = true → allInvalidList (cs.map g) = true
  | [], h => h
  | c :: rest, h => by
    unfold allInvalidList at h
    simp only [Bool.and_eq_true] at h
    simp only [List.map]
    unfold allInvalidList
    simp only [Bool.and_eq_true]
    exact ⟨hg c h.1, allInvalidList_map g hg rest h.2⟩

theorem resizeStage_root (g : Rect → FTree → FTree) (oldSize : Sz) (t : FTree) :
    (resizeStage g oldSize t).root = t.root := by
  obtain ⟨v, cs⟩ := t
  simp only [resizeStage]
  split <;> rfl

theorem resizeStage_allInvalid (g : Rect → FTree → FTree) (oldSize : Sz)
    (hg : ∀ R c, allInvalid c = true → allInvalid (g R c) = true)
    (t : FTree) (h : allInvalid t = true) :
    allInvalid (resizeStage g oldSize t) = true := by
  obtain ⟨v, cs⟩ := t
  have hv : (!v.coordinatesValid) = true := by
    unfold allInvalid at h
    simp only [Bool.and_eq_true] at h
    exact h.1
  have hcs : allInvalidList cs = true := by
    unfold allInvalid at h
    simp only [Bool.and_eq_true] at h
    exact h.2
  simp only [resizeStage]
  split
  · exact h
  · unfold allInvalid
    simp only [Bool.and_eq_true]
    refine ⟨hv, allInvalidList_map _ ?_ cs hcs⟩
    intro c hc
    split
    · exact hc
    · exact hg _ c hc

set_option maxHeartbeats 1600000 in
/-- setFrame: never revalidates a cache: a fully invalid subtree stays
fully invalid through any setFrame (and its autoresize cascade). -/
theorem setFrame_allInvalid : ∀ (fuel : Nat) (R : Rect) (t : FTree),
    allInvalid t = true → allInvalid (setFrame fuel R t) = true := by
  intro fuel
  induction fuel with
  | zero => intro R t h; exact h
  | succ f ih =>
    intro R t h
    obtain ⟨v, cs⟩ := t
    have hv : v.coordinatesValid = false := by
      unfold allInvalid at h
      simp only [Bool.and_eq_true, Bool.not_eq_true'] at h
      exact h.1
    have hcs : allInvalidList cs = true := by
      unfold allInvalid at h
      simp only [Bool.and_eq_true] at h
      exact h.2
    have hu : (setFrameUpdate R v).1.coordinatesValid = false := by
      rw [setFrameUpdate_coordinatesValid]; exact hv
    have hself : allInvalid (FTree.node (setFrameUpdate R v).1 cs) = true := by
      unfold allInvalid
      simp [hu, hcs]
    simp only [setFrame]
    split
    · rw [if_neg (by simp [hu])]
      exact resizeStage_allInvalid _ _ (fun R c hc => ih R c hc) _ hself
    · exact hself

set_option maxHeartbeats 1600000 in
/-- C1 (amended): on every view tree satisfying the downward-closed
cache-validity invariant (an invalid node has no valid descendant — the
invariant the short-circuiting invalidation maintains), after
setFrame(R) where the clamped rectangle differs from the node's
current frame in origin or size, the node's frame equals R with
negative width/height clamped to 0 and the cached transforms of the
node and of every descendant are invalid (until the next access
rebuilds them). When the clamped rectangle equals the current frame,
setFrame leaves the cache untouched — see the counterexample. -/
theorem claim_C1_setFrame (R : Rect) (t : FTree) (fuel : Nat) (hfuel : 0 < fuel)
    (hdc : downClosed t = true) (hch : frameChanged R t.root = true) :
    (setFrame fuel R t).root.frame = clampRect R ∧
      allInvalid (setFrame fuel R t) = true := by
  obtain ⟨f, rfl⟩ : ∃ f, fuel = f + 1 := ⟨fuel - 1, by omega⟩
  obtain ⟨v, cs⟩ := t
  have hdcl : downClosedList cs = true := by
    unfold downClosed at hdc
    simp only [Bool.and_eq_true] at hdc
    exact hdc.1
  have hchv : (setFrameUpdate R v).2.1 = true := by
    rw [setFrameUpdate_changed]
    simpa [FTree.root] using hch
  simp only [setFrame]
  rw [if_pos hchv]
  constructor
  · rw [resizeStage_root]
    by_cases hval : (setFrameUpdate R v).1.coordinatesValid = true
    · rw [if_pos hval, invalidate_node_valid _ cs hval]
      exact setFrameUpdate_frame R v
    · rw [if_neg hval]
      exact setFrameUpdate_frame R v
  · apply resizeStage_allInvalid _ _ (fun R c hc => setFrame_allInvalid f R c hc)
    by_cases hval : (setFrameUpdate R v).1.coordinatesValid = true
    · rw [if_pos hval, invalidate_node_valid _ cs hval]
      unfold allInvalid
      simp only [Bool.and_eq_true, Bool.not_eq_true']
      exact ⟨by simp, allInvalidList_invalidateChildren cs hdcl⟩
    · rw [if_neg hval]
      have hvf : v.coordinatesValid = false := by
        rw [← setFrameUpdate_coordinatesValid R v]
        exact Bool.eq_false_iff.mpr hval
      have hroots : rootsInvalid cs = true := by
        unfold downClosed at hdc
        simp only [Bool.and_eq_true, Bool.or_eq_true] at hdc
        rcases hdc.2 with hcontra | hok
        · rw [hvf] at hcontra; cases hcontra
        · exact hok
      unfold allInvalid
      simp only [Bool.and_eq_true, Bool.not_eq_true']
      exact ⟨Bool.eq_false_iff.mpr hval, downClosedList_invalid cs hdcl hroots⟩

theorem claim_C1_witness :
    (0 < 2 ∧ downClosed validPair = true ∧
        frameChanged (NSMakeRect 1 2 30 40) validPair.root = true) ∧
      ((setFrame 2 (NSMakeRect 1 2 30 40) validPair).root.frame =
          clampRect (NSMakeRect 1 2 30 40) ∧
        allInvalid (setFrame 2 (NSMakeRect 1 2 30 40) validPair) = true) :=
  ⟨⟨by decide,
    by simp [validPair, validLeaf, downClosed, downClosedList, rootsInvalid],
    by decide⟩,
    claim_C1_setFrame (NSMakeRect 1 2 30 40) validPair 2 (by decide)
      (by simp [validPair, validLeaf, downClosed, downClosedList, rootsInvalid])
      (by decide)⟩

/-- C1 counterexample: calling setFrame with the view's current frame
rectangle leaves the transform cache valid — the claim that
cachedTransformsValid is false after every setFrame(R) fails when the
clamped R equals the current frame, because the invalidation only runs
when the origin or size changed. -/
theorem claim_C1_counterexample :
    (setFrame 1 (NSMakeRect 0 0 10 10) (FTree.node validLeaf [])).root.frame =
        NSMakeRect 0 0 10 10 ∧
      (setFrame 1 (NSMakeRect 0 0 10 10)
          (FTree.node validLeaf [])).root.coordinatesValid = true := by
  exact ⟨by decide, by decide⟩

end FrameModel


namespace TreeModel

/-- C2: when the receiver is a descendant of the argument (the argument
is the receiver itself or one of its ancestors), or the argument is
nil, addSubview: raises an invalid-argument error and the world — every
view's superview reference, subview list and window reference — is
returned unmodified: both guards run before any linkage change. -/
theorem claim_C2_addSubview_guards (w : World) (fuel : Nat) (self : Nat)
    (aView : Option Nat)
    (h : aView = none ∨ ∃ x, aView = some x ∧ isDescendantOf w fuel self x = true) :
    ∃ e, addSubview fuel w self aView = (some e, w) := by
  match aView, h with
  | none, _ => exact ⟨.nilSubview, rfl⟩
  | some x, h =>
    have hx : isDescendantOf w fuel self x = true := by
      rcases h with h | ⟨y, hy, hdesc⟩
      · cases h
      · cases hy; exact hdesc
    refine ⟨.wouldCreateLoop, ?_⟩
    unfold addSubview
    simp only [hx, if_true]

theorem claim_C2_witness :
    ((some 0 : Option Nat) = none ∨
      ∃ x, (some 0 : Option Nat) = some x ∧ isDescendantOf chainWorld 3 1 x = true) ∧
      ∃ e, addSubview 3 chainWorld 1 (some 0) = (some e, chainWorld) :=
  ⟨Or.inr ⟨0, rfl, by decide⟩,
    claim_C2_addSubview_guards chainWorld 3 1 (some 0)
      (Or.inr ⟨0, rfl, by decide⟩)⟩

end TreeModel


namespace DisplayModel

open GeomQ AffQ

/-- C6 (amended): marking a rectangle already contained in the node's
invalidRect (after intersection with bounds) leaves the node's own
state, the window's dirty-views flag untouched, fires nothing, and
performs no redirect into the opaque ancestor; the one effect that
still takes place is the unconditional superview walk, which sets
needsDisplay on every ancestor (a visible change whenever some ancestor
had it clear — see the counterexample). And markNeedsDisplay(false) is
idempotent: clearing needsDisplay and invalidRect twice equals doing it
once. -/
theorem claim_C6_contained_mark (fuel : Nat) (r : Rect) (self : DNode)
    (anc : List DNode) (wf : Bool) (hfuel : 0 < fuel)
    (hcont : NSEqualRects
      (NSUnionRect self.invalidRect (NSIntersectionRect r self.bounds))
      self.invalidRect = true) :
    setNeedsDisplayInRect fuel r self anc wf =
      (self, anc.map fun a => { a with needsDisplay := true }, wf) ∧
    ∀ v : DNode, setNeedsDisplayFalseNode (setNeedsDisplayFalseNode v) =
      setNeedsDisplayFalseNode v := by
  obtain ⟨f, rfl⟩ : ∃ f, fuel = f + 1 := ⟨fuel - 1, by omega⟩
  refine ⟨?_, fun v => rfl⟩
  simp only [setNeedsDisplayInRect]
  rw [if_neg (by rw [hcont]; exact fun hc => nomatch hc)]

theorem claim_C6_witness :
    (0 < 2 ∧ NSEqualRects
      (NSUnionRect markSelf.invalidRect
        (NSIntersectionRect (NSMakeRect 1 1 2 2) markSelf.bounds))
      markSelf.invalidRect = true) ∧
    (setNeedsDisplayInRect 2 (NSMakeRect 1 1 2 2) markSelf [markParent] false =
      (markSelf, [markParent].map fun a => { a with needsDisplay := true }, false) ∧
    ∀ v : DNode, setNeedsDisplayFalseNode (setNeedsDisplayFalseNode v) =
      setNeedsDisplayFalseNode v) :=
  ⟨⟨by decide, by norm_num [NSEqualRects, NSUnionRect, NSIntersectionRect,
      NSIsEmptyRect, markSelf, NSMakeRect, NSZeroRect, Rect.maxX, Rect.maxY,
      Rect.minX, Rect.minY, beq_iff_eq]⟩,
    claim_C6_contained_mark 2 (NSMakeRect 1 1 2 2) markSelf [markParent] false
      (by decide) (by norm_num [NSEqualRects, NSUnionRect, NSIntersectionRect,
        NSIsEmptyRect, markSelf, NSMakeRect, NSZeroRect, Rect.maxX, Rect.maxY,
        Rect.minX, Rect.minY, beq_iff_eq])⟩

/-- C6 counterexample: marking a rectangle already contained in the
node's invalidRect is not free of observable effects: the unconditional
superview walk flips an ancestor's needsDisplay from false to true
(here the parent had needsDisplay = false before the call). -/
theorem claim_C6_counterexample :
    markParent.needsDisplay = false ∧
    NSEqualRects (NSUnionRect markSelf.invalidRect
      (NSIntersectionRect (NSMakeRect 0 0 5 5) markSelf.bounds))
      markSelf.invalidRect = true ∧
    (setNeedsDisplayInRect 2 (NSMakeRect 0 0 5 5) markSelf [markParent]
      false).2.1 = [{ markParent with needsDisplay := true }] := by
  refine ⟨rfl, ?_, ?_⟩
  · norm_num [NSEqualRects, NSUnionRect, NSIntersectionRect, NSIsEmptyRect,
      markSelf, NSMakeRect, NSZeroRect, Rect.maxX, Rect.maxY, Rect.minX,
      Rect.minY, beq_iff_eq]
  · norm_num [setNeedsDisplayInRect, NSEqualRects, NSUnionRect,
      NSIntersectionRect, NSIsEmptyRect, markSelf, markParent, NSMakeRect,
      NSZeroRect, Rect.maxX, Rect.maxY, Rect.minX, Rect.minY, beq_iff_eq]

/-- C8 (amended): the mark operation preserves the invariant invalidRect
⊆ bounds on the node and on its whole superview chain: it intersects
the incoming rectangle with bounds before storing it, and the redirect
into the opaque ancestor recursively does the same. The display pass,
however, pushes redrawn areas into subviews without intersecting with
the subview's bounds, and for a subview with rotated coordinates the
stored rect can escape its bounds — see the counterexample. -/
theorem claim_C8_mark_preserves_invariant :
    ∀ (fuel : Nat) (r : Rect) (self : DNode) (anc : List DNode) (wf : Bool),
      subRect self.invalidRect self.bounds →
      (∀ a ∈ anc, subRect a.invalidRect a.bounds) →
      subRect (setNeedsDisplayInRect fuel r self anc wf).1.invalidRect
          (setNeedsDisplayInRect fuel r self anc wf).1.bounds ∧
        ∀ a ∈ (setNeedsDisplayInRect fuel r self anc wf).2.1,
          subRect a.invalidRect a.bounds := by
  intro fuel
  induction fuel with
  | zero => intro r self anc wf hself hanc; exact ⟨hself, hanc⟩
  | succ f ih =>
    intro r self anc wf hself hanc
    have hmap : ∀ (l : List DNode), (∀ a ∈ l, subRect a.invalidRect a.bounds) →
        ∀ a ∈ l.map (fun a => { a with needsDisplay := true }),
          subRect a.invalidRect a.bounds := by
      intro l hl a ha
      obtain ⟨b, hb, rfl⟩ := List.mem_map.mp ha
      exact hl b hb
    simp only [setNeedsDisplayInRect]
    split
    · -- the union changed: self2 stores bounds-clipped content
      have hself2 : subRect
          (NSUnionRect self.invalidRect (NSIntersectionRect r self.bounds))
          self.bounds :=
        subRect_union _ _ _ hself (subRect_inter_right r self.bounds)
      split
      · exact ⟨hself2, hmap anc hanc⟩
      · split
        · exact ⟨hself2, hmap anc hanc⟩
        · rename_i fo foAnc hdrop
          have hfo : fo ∈ anc := by
            have : fo ∈ anc.drop (opaqueAncestorIdx self anc - 1) := by
              rw [hdrop]; exact List.mem_cons_self fo foAnc
            exact List.drop_subset _ anc this
          have hfoAnc : ∀ a ∈ foAnc, subRect a.invalidRect a.bounds := by
            intro a ha
            have : a ∈ anc.drop (opaqueAncestorIdx self anc - 1) := by
              rw [hdrop]; exact List.mem_cons_of_mem fo ha
            exact hanc a (List.drop_subset _ anc this)
          obtain ⟨h1, h2⟩ := ih _ fo foAnc wf (hanc fo hfo) hfoAnc
          refine ⟨hself2, ?_⟩
          apply hmap
          intro a ha
          rcases List.mem_append.mp ha with ha | ha
          · exact hanc a (List.take_subset _ anc ha)
          · rcases List.mem_cons.mp ha with rfl | ha
            · exact h1
            · exact h2 a ha
    · exact ⟨hself, hmap anc hanc⟩

theorem claim_C8_witness :
    (subRect markSelf.invalidRect markSelf.bounds ∧
      ∀ a ∈ [markParent], subRect a.invalidRect a.bounds) ∧
    (subRect (setNeedsDisplayInRect 2 (NSMakeRect 3 3 20 20) markSelf
        [markParent] false).1.invalidRect
      (setNeedsDisplayInRect 2 (NSMakeRect 3 3 20 20) markSelf
        [markParent] false).1.bounds ∧
      ∀ a ∈ (setNeedsDisplayInRect 2 (NSMakeRect 3 3 20 20) markSelf
          [markParent] false).2.1,
        subRect a.invalidRect a.bounds) :=
  ⟨⟨by norm_num [subRect, NSIsEmptyRect, markSelf, NSMakeRect, Rect.maxX,
      Rect.maxY],
    by norm_num [subRect, NSIsEmptyRect, markParent, NSMakeRect, NSZeroRect,
      Rect.maxX, Rect.maxY]⟩,
    claim_C8_mark_preserves_invariant 2 (NSMakeRect 3 3 20 20) markSelf
      [markParent] false
      (by norm_num [subRect, NSIsEmptyRect, markSelf, NSMakeRect, Rect.maxX,
        Rect.maxY])
      (by norm_num [subRect, NSIsEmptyRect, markParent, NSMakeRect, NSZeroRect,
        Rect.maxX, Rect.maxY])⟩

end DisplayModel


namespace DisplayModel

open GeomQ AffQ

theorem NSEqualRects_self (a : Rect) : NSEqualRects a a = true := by
  simp [NSEqualRects]

set_option maxHeartbeats 1600000 in
/-- displayIfNeededInRectIgnoringOpacity, called on a drawable dirty view
with the (nonempty) overlap of its invalid and visible rects — the call
displayIfNeededIgnoringOpacity issues — empties the view's invalidRect,
leaving its needsDisplay to the subviews' remaining dirtiness. -/
theorem displayInRect_clears (f : Nat) (ctx : Ctx) (v : DNode) (cs : List DTree)
    (hcan : canDraw ctx v = true) (hnd : v.needsDisplay = true)
    (hvis : NSIsEmptyRect (NSIntersectionRect v.invalidRect (visibleOf ctx v)) = false) :
    ∃ nd2 cs2, displayIfNeededInRectIgnoringOpacity (f + 1) ctx
        (NSIntersectionRect v.invalidRect (visibleOf ctx v)) (DTree.node v cs) =
      DTree.node { v with invalidRect := NSZeroRect, needsDisplay := nd2 } cs2 := by
  have haRect : NSIntersectionRect
      (NSIntersectionRect v.invalidRect (visibleOf ctx v)) (visibleOf ctx v) =
      NSIntersectionRect v.invalidRect (visibleOf ctx v) :=
    inter_inter_self _ _ hvis
  have hneed : NSIntersectionRect (visibleOf ctx v) v.invalidRect =
      NSIntersectionRect v.invalidRect (visibleOf ctx v) :=
    inter_comm _ _
  have hcover : NSEqualRects (NSIntersectionRect v.invalidRect (visibleOf ctx v))
      (NSUnionRect (NSIntersectionRect v.invalidRect (visibleOf ctx v))
        (NSIntersectionRect v.invalidRect (visibleOf ctx v))) = true := by
    rw [union_self _ hvis]
    exact NSEqualRects_self _
  simp only [displayIfNeededInRectIgnoringOpacity]
  rw [if_neg (by simp [hcan]), if_pos hnd, haRect]
  rw [hneed, hcover]
  simp only [if_true]
  split
  · exact ⟨false, _, rfl⟩
  · exact ⟨_, _, rfl⟩

set_option maxHeartbeats 1600000 in
/-- displayIfNeeded on an opaque, drawable, dirty view whose invalid rect
meets its visible rect ends with an empty invalidRect and needsDisplay
off (the outer pass drops the flag after recursing into subviews
regardless of their remaining dirtiness). -/
theorem displayOpaque_clears (fuel : Nat) (ctx : Ctx) (v : DNode) (cs : List DTree)
    (hfuel : 0 < fuel) (hcan : canDraw ctx v = true) (hnd : v.needsDisplay = true)
    (hvis : NSIsEmptyRect (NSIntersectionRect v.invalidRect (visibleOf ctx v)) = false) :
    (displayIfNeededOpaque fuel ctx (DTree.node v cs)).root.invalidRect = NSZeroRect ∧
    (displayIfNeededOpaque fuel ctx (DTree.node v cs)).root.needsDisplay = false := by
  obtain ⟨f, rfl⟩ : ∃ f, fuel = f + 1 := ⟨fuel - 1, by omega⟩
  obtain ⟨nd2, cs2, hA⟩ := displayInRect_clears f ctx v cs hcan hnd hvis
  unfold displayIfNeededOpaque
  rw [if_pos (show (DTree.node v cs).root.needsDisplay = true from hnd)]
  simp only [displayIfNeededIgnoringOpacity]
  rw [if_pos hnd, if_pos hvis, hA]
  cases nd2 <;> simp [DTree.root]

end DisplayModel


namespace DisplayModel

open GeomQ AffQ

set_option maxHeartbeats 1600000 in
/-- C5 (amended): for an opaque node that can draw, marking a rectangle
and then immediately calling displayIfNeeded leaves invalidRect empty —
provided the mark left the node needing display and the resulting
invalidRect meets the node's visibleRect — and leaves needsDisplay
false (the outer pass drops the receiver's flag after recursing into
dirty subviews, so this holds whether or not a subview remains dirty).
When the marked region lies entirely outside the visible rect,
displayIfNeeded clears the flag but leaves invalidRect untouched — see
the counterexample. -/
theorem claim_C5_mark_then_display (fuelM fuelD : Nat) (ctx : Ctx) (r : Rect)
    (v : DNode) (cs : List DTree) (anc : List DNode) (wf : Bool)
    (hfuel : 0 < fuelD) (_hopq : v.isOpaque = true)
    (hcan : canDraw ctx (setNeedsDisplayInRect fuelM r v anc wf).1 = true)
    (hnd : (setNeedsDisplayInRect fuelM r v anc wf).1.needsDisplay = true)
    (hvis : NSIsEmptyRect (NSIntersectionRect
      (setNeedsDisplayInRect fuelM r v anc wf).1.invalidRect
      (visibleOf ctx (setNeedsDisplayInRect fuelM r v anc wf).1)) = false) :
    (displayIfNeededOpaque fuelD ctx
        (DTree.node (setNeedsDisplayInRect fuelM r v anc wf).1 cs)).root.invalidRect
      = NSZeroRect ∧
    (displayIfNeededOpaque fuelD ctx
        (DTree.node (setNeedsDisplayInRect fuelM r v anc wf).1 cs)).root.needsDisplay
      = false :=
  displayOpaque_clears fuelD ctx _ cs hfuel hcan hnd hvis

set_option maxHeartbeats 1600000 in
theorem claim_C5_witness :
    (0 < 2 ∧ markSelf.isOpaque = true ∧
      canDraw rootCtx (setNeedsDisplayInRect 1 (NSMakeRect 2 2 6 6) markSelf []
        false).1 = true ∧
      (setNeedsDisplayInRect 1 (NSMakeRect 2 2 6 6) markSelf []
        false).1.needsDisplay = true ∧
      NSIsEmptyRect (NSIntersectionRect
        (setNeedsDisplayInRect 1 (NSMakeRect 2 2 6 6) markSelf [] false).1.invalidRect
        (visibleOf rootCtx
          (setNeedsDisplayInRect 1 (NSMakeRect 2 2 6 6) markSelf [] false).1)) =
        false) ∧
    ((displayIfNeededOpaque 2 rootCtx
        (DTree.node (setNeedsDisplayInRect 1 (NSMakeRect 2 2 6 6) markSelf []
          false).1 [])).root.invalidRect = NSZeroRect ∧
      (displayIfNeededOpaque 2 rootCtx
        (DTree.node (setNeedsDisplayInRect 1 (NSMakeRect 2 2 6 6) markSelf []
          false).1 [])).root.needsDisplay = false) :=
  ⟨⟨by decide, rfl,
    by norm_num [setNeedsDisplayInRect, opaqueAncestorIdx, markSelf, canDraw,
      rootCtx, NSMakeRect, NSZeroRect, NSEqualRects, NSUnionRect,
      NSIntersectionRect, NSIsEmptyRect, Rect.maxX, Rect.maxY, Rect.minX,
      Rect.minY, beq_iff_eq],
    by norm_num [setNeedsDisplayInRect, opaqueAncestorIdx, markSelf,
      NSMakeRect, NSZeroRect, NSEqualRects, NSUnionRect, NSIntersectionRect,
      NSIsEmptyRect, Rect.maxX, Rect.maxY, Rect.minX, Rect.minY, beq_iff_eq],
    by norm_num [setNeedsDisplayInRect, opaqueAncestorIdx, markSelf,
      visibleOf, CoordModel.rebuildCoordinates, DNode.toRNode, rootCtx,
      NSMakeRect, NSZeroRect, NSEqualRects, NSUnionRect, NSIntersectionRect,
      NSIsEmptyRect, Rect.maxX, Rect.maxY, Rect.minX, Rect.minY, beq_iff_eq]⟩,
    claim_C5_mark_then_display 1 2 rootCtx (NSMakeRect 2 2 6 6) markSelf [] []
      false (by decide) rfl
      (by norm_num [setNeedsDisplayInRect, opaqueAncestorIdx, markSelf, canDraw,
        rootCtx, NSMakeRect, NSZeroRect, NSEqualRects, NSUnionRect,
        NSIntersectionRect, NSIsEmptyRect, Rect.maxX, Rect.maxY, Rect.minX,
        Rect.minY, beq_iff_eq])
      (by norm_num [setNeedsDisplayInRect, opaqueAncestorIdx, markSelf,
        NSMakeRect, NSZeroRect, NSEqualRects, NSUnionRect, NSIntersectionRect,
        NSIsEmptyRect, Rect.maxX, Rect.maxY, Rect.minX, Rect.minY, beq_iff_eq])
      (by norm_num [setNeedsDisplayInRect, opaqueAncestorIdx, markSelf,
        visibleOf, CoordModel.rebuildCoordinates, DNode.toRNode, rootCtx,
        NSMakeRect, NSZeroRect, NSEqualRects, NSUnionRect, NSIntersectionRect,
        NSIsEmptyRect, Rect.maxX, Rect.maxY, Rect.minX, Rect.minY, beq_iff_eq])⟩

set_option maxHeartbeats 1600000 in
/-- C5 counterexample: an opaque drawable node whose superview clips it
to a 50 by 50 visible region, marked in a region of its bounds outside
that visible region: displayIfNeeded clears needsDisplay but leaves the
non-empty invalidRect behind, so the claim that invalidRect is left
empty fails. -/
theorem claim_C5_counterexample :
    cexMarked = (setNeedsDisplayInRect 1 (NSMakeRect 60 60 10 10) cexSelf []
      false).1 ∧
    cexMarked.isOpaque = true ∧ canDraw cexCtx cexMarked = true ∧
    cexMarked.needsDisplay = true ∧
    (displayIfNeededOpaque 3 cexCtx (DTree.node cexMarked [])).root.invalidRect =
      NSMakeRect 60 60 10 10 ∧
    NSIsEmptyRect (NSMakeRect 60 60 10 10) = false := by
  have hvisC : visibleOf cexCtx cexMarked = NSMakeRect 0 0 50 50 := by
    norm_num [visibleOf, CoordModel.rebuildCoordinates, DNode.toRNode, cexCtx,
      cexMarked, Aff.prepend, Aff.identity, Aff.inv, Aff.det, Aff.apply, flipM,
      convertRectUsingMatrices, NSIntersectionRect, NSMakeRect, Rect.maxX,
      Rect.maxY, Rect.minX, Rect.minY, NSZeroRect]
  have hint : NSIntersectionRect cexMarked.invalidRect (NSMakeRect 0 0 50 50) =
      NSZeroRect := by
    norm_num [cexMarked, NSIntersectionRect, NSMakeRect, Rect.maxX, Rect.maxY,
      Rect.minX, Rect.minY, NSZeroRect]
  refine ⟨?_, rfl, rfl, rfl, ?_, by decide⟩
  · norm_num [setNeedsDisplayInRect, opaqueAncestorIdx, cexSelf, cexMarked,
      NSMakeRect, NSZeroRect, NSEqualRects, NSUnionRect, NSIntersectionRect,
      NSIsEmptyRect, Rect.maxX, Rect.maxY, Rect.minX, Rect.minY, beq_iff_eq]
  · simp only [displayIfNeededOpaque]
    rw [if_pos (show (DTree.node cexMarked []).root.needsDisplay = true from rfl)]
    simp only [displayIfNeededIgnoringOpacity]
    rw [if_pos (show cexMarked.needsDisplay = true from rfl), hvisC, hint]
    rw [if_neg (by decide)]
    rfl

end DisplayModel


namespace DisplayModel

open GeomQ AffQ

set_option maxHeartbeats 4000000 in
/-- C8 counterexample: the subview loop of
displayIfNeededInRectIgnoringOpacity: pushes the redrawn overlap into a
subview by direct union, without intersecting with the subview's
bounds: for a hidden subview whose bounds matrix is rotated, the
converted bounding box (0,-8,14,14) lands in its invalidRect and
escapes its (0,0,10,10) bounds — and the hidden subview, unable to
draw, keeps it after the pass. -/
theorem claim_C8_counterexample :
    (displayIfNeededInRectIgnoringOpacity 2 rootCtx (NSMakeRect 0 0 100 100)
        c8Tree).firstChildState =
      some { { c8Child with needsDisplay := true } with
        invalidRect := NSMakeRect 0 (-8) 14 14 } ∧
    ¬ subRect (NSMakeRect 0 (-8) 14 14) c8Child.bounds := by
  constructor
  · norm_num [displayIfNeededInRectIgnoringOpacity, displaySubviewsLoop, c8Tree,
      c8Root, c8Child, rootCtx, rotB, canDraw, visibleOf, toWindowOf,
      fromWindowOf, childCtx, CoordModel.rebuildCoordinates, DNode.toRNode,
      boundingRectFor, convertRectUsingMatrices, Aff.prepend, Aff.identity,
      Aff.inv, Aff.det, Aff.apply, flipM, NSMakeRect, NSZeroRect, NSEqualRects,
      NSUnionRect, NSIntersectionRect, NSIsEmptyRect, Rect.maxX, Rect.maxY,
      Rect.minX, Rect.minY, beq_iff_eq, DTree.firstChildState, DTree.root,
      DTree.children]
  · norm_num [subRect, NSIsEmptyRect, c8Child, NSMakeRect, Rect.maxX, Rect.maxY]

end DisplayModel
